import Mathlib

/-!
Verification development for the DeepResearch-AI repository.

The repository is a TypeScript research assistant.  The functions verified here
are shallow embeddings of its resilience core: the retry-with-backoff wrappers,
the JSON extractors, the web-search client, the generation clients with their
deterministic fallbacks, and the research orchestrator.  External services
(the generative-language model, the JSON.parse builtin applied to model output,
and the web-search API) are modelled as oracle parameters returning
`Except Err`; everything else is translated directly from the source.
-/

/-- Character constants, written via code points so that brace and backtick
characters never appear literally in the file. -/
def braceOpen : Char := Char.ofNat 123

/-- Closing brace character. -/
def braceClose : Char := Char.ofNat 125

/-- Backtick character, used by the fenced-code-block regular expression. -/
def backtick : Char := Char.ofNat 96

/-- Test whether `pat` matches the front of `cs` (character-by-character). -/
def agreesAt : List Char → List Char → Bool
  | [], _ => true
  | _ :: _, [] => false
  | a :: as, b :: bs => a == b && agreesAt as bs

/-- Substring test on character lists: does `needle` occur inside `hay`?
Models the JavaScript `String.prototype.includes`. -/
def hasSub (needle : List Char) : List Char → Bool
  | [] => agreesAt needle []
  | c :: t => agreesAt needle (c :: t) || hasSub needle t

/-- Substring test on strings, modelling `s.includes(sub)`. -/
def strIncludes (s sub : String) : Bool := hasSub sub.data s.data

/-- Whitespace test used to model `String.prototype.trim` (the core of the
JavaScript whitespace set). -/
def isTrimWsChar (c : Char) : Bool :=
  c == ' ' || c == '\t' || c == '\n' || c == '\r' ||
  c == Char.ofNat 11 || c == Char.ofNat 12

/-- Strip leading and trailing whitespace from a character list. -/
def jsTrimChars (cs : List Char) : List Char :=
  ((cs.dropWhile isTrimWsChar).reverse.dropWhile isTrimWsChar).reverse

/-- Model of `String.prototype.trim` (the built-in `String.trim` of Lean is
not used because its byte-position recursion does not reduce in the
kernel). -/
def jsTrim (s : String) : String := String.mk (jsTrimChars s.data)

/-- Model of a JavaScript exception as observed by the retry wrappers: a
message string and an optional numeric `statusCode`. -/
structure Err where
  message : String
  statusCode : Option Nat
deriving DecidableEq

/-- Rate-limit test used by the feedback and research-engine retry wrappers:
the message contains "429" or "quota". -/
def isRateLimitMsg (e : Err) : Bool :=
  strIncludes e.message "429" || strIncludes e.message "quota"

instance {ε α : Type} [DecidableEq ε] [DecidableEq α] : DecidableEq (Except ε α) :=
  fun a b =>
    match a, b with
    | .ok x, .ok y => decidable_of_iff (x = y) (by simp)
    | .ok _, .error _ => isFalse (by simp)
    | .error _, .ok _ => isFalse (by simp)
    | .error x, .error y => decidable_of_iff (x = y) (by simp)

namespace WebSearch

/-- Retry with exponential backoff, from src/src/core/web-search.ts lines
19-45.  The fallible operation is modelled as `fn : Nat → Except Err α`,
indexed by the attempt number; the `await delay(waitTime)` sleeps are made
observable by returning the total waited time alongside the result.
Rate limits are detected by `e.statusCode === 429`; a rate-limited failure
starts the wait at `baseDelay * 4`.  Defaults: retries = 3, baseDelay = 2000. -/
def retry {α : Type} (fn : Nat → Except Err α) (attempt : Nat) (retries : Nat)
    (baseDelay : Nat) : Except Err α × Nat :=
  match fn attempt with
  | .ok v => (.ok v, 0)
  | .error e =>
    match retries with
    | 0 => (.error e, 0)
    | r + 1 =>
      let waitTime := if e.statusCode == some 429 then baseDelay * 4 else baseDelay
      let rest := retry fn (attempt + 1) r (waitTime * 2)
      (rest.1, waitTime + rest.2)

end WebSearch

namespace ResearchEngine

/-- Retry with exponential backoff, from the research-engine source (unnamed
part_001, lines 17-36).  Identical to the web-search wrapper except that rate
limits are detected by the error message containing "429" or "quota".
Defaults: retries = 3, baseDelay = 2000. -/
def retry {α : Type} (fn : Nat → Except Err α) (attempt : Nat) (retries : Nat)
    (baseDelay : Nat) : Except Err α × Nat :=
  match fn attempt with
  | .ok v => (.ok v, 0)
  | .error e =>
    match retries with
    | 0 => (.error e, 0)
    | r + 1 =>
      let waitTime := if isRateLimitMsg e then baseDelay * 4 else baseDelay
      let rest := retry fn (attempt + 1) r (waitTime * 2)
      (rest.1, waitTime + rest.2)

end ResearchEngine

namespace Feedback

/-- Retry with exponential backoff, from src/src/core/feedback.ts lines 14-33.
Rate limits are detected by the error message containing "429" or "quota", and
a rate-limited failure starts the wait at `baseDelay * 2` (unlike the other two
wrappers, which use `baseDelay * 4`).  Defaults: retries = 3, baseDelay = 1000. -/
def retry {α : Type} (fn : Nat → Except Err α) (attempt : Nat) (retries : Nat)
    (baseDelay : Nat) : Except Err α × Nat :=
  match fn attempt with
  | .ok v => (.ok v, 0)
  | .error e =>
    match retries with
    | 0 => (.error e, 0)
    | r + 1 =>
      let waitTime := if isRateLimitMsg e then baseDelay * 2 else baseDelay
      let rest := retry fn (attempt + 1) r (waitTime * 2)
      (rest.1, waitTime + rest.2)

end Feedback

/-! Model of the fenced-code-block regular expression shared by all three
extractJSON implementations.  The pattern is: three backticks, an optional
literal "json", optional whitespace, a captured group consisting of an opening
brace, a lazy any-character run and a closing brace, optional whitespace, and
three closing backticks.  The model implements the backtracking search order
of the JavaScript engine: leftmost start position first, the optional "json"
consumed greedily first, and the lazy run expanded minimally. -/

/-- Whitespace class used by the regular expression. -/
def isJsWsChar (c : Char) : Bool :=
  c == ' ' || c == '\t' || c == '\n' || c == '\r' ||
  c == Char.ofNat 11 || c == Char.ofNat 12

/-- Skip leading regex whitespace. -/
def skipRegexWs (cs : List Char) : List Char := cs.dropWhile isJsWsChar

/-- Three backticks. -/
def tick3 : List Char := [backtick, backtick, backtick]

/-- Find the minimal lazy-run length `n` such that the character at position
`n` is a closing brace followed (after optional whitespace) by three closing
backticks. -/
def lazyEnd : List Char → Option Nat
  | [] => none
  | c :: rest =>
    if c == braceClose && agreesAt tick3 (skipRegexWs rest) then some 0
    else (lazyEnd rest).map (· + 1)

/-- Match `\s*(\{[\s\S]*?\})\s*` followed by three closing backticks,
returning the captured group. -/
def matchCaptureBody (r : List Char) : Option (List Char) :=
  match skipRegexWs r with
  | c :: body =>
    if c == braceOpen then
      match lazyEnd body with
      | some n => some (braceOpen :: (body.take n ++ [braceClose]))
      | none => none
    else none
  | [] => none

/-- Match the part of the pattern after the three opening backticks: the
optional "json" tag is tried first, then the body. -/
def matchAfterTicks (cs : List Char) : Option (List Char) :=
  if agreesAt "json".data cs then
    match matchCaptureBody (cs.drop 4) with
    | some cap => some cap
    | none => matchCaptureBody cs
  else matchCaptureBody cs

/-- Leftmost match of the fenced-block pattern over the whole text. -/
def fencedMatch : List Char → Option (List Char)
  | [] => none
  | c :: rest =>
    if c == backtick && agreesAt [backtick, backtick] rest then
      match matchAfterTicks (rest.drop 2) with
      | some cap => some cap
      | none => fencedMatch rest
    else fencedMatch rest

/-! The two brace-slicing extractors. -/

/-- Model of `String.prototype.indexOf` for a single character, returning
`none` where JavaScript returns -1. -/
def jsIndexOfAux (c : Char) : List Char → Nat → Option Nat
  | [], _ => none
  | x :: xs, i => if x == c then some i else jsIndexOfAux c xs (i + 1)

/-- First index of `c` in `s`. -/
def jsIndexOf (s : List Char) (c : Char) : Option Nat := jsIndexOfAux c s 0

/-- Model of `String.prototype.lastIndexOf` for a single character. -/
def jsLastIndexOf (s : List Char) (c : Char) : Option Nat :=
  match jsIndexOfAux c s.reverse 0 with
  | some k => some (s.length - 1 - k)
  | none => none

/-- Model of `String.prototype.substring`: negative arguments cannot arise
here (both indices come from successful indexOf calls), larger-than-length
arguments are clamped, and the two indices are swapped when given in
descending order. -/
def jsSubstring (s : List Char) (a b : Nat) : List Char :=
  let a2 := min a s.length
  let b2 := min b s.length
  (s.drop (min a2 b2)).take (max a2 b2 - min a2 b2)

/-- extractJSON as defined identically in src/src/core/feedback.ts lines
36-52 and in the research-engine source (unnamed part_001, lines 39-55): a
fenced block is preferred; otherwise the slice from the first opening brace
to the last closing brace is returned, and `none` only when either brace is
absent. -/
def extractJSONNaive (text : String) : Option String :=
  match fencedMatch text.data with
  | some cap => some (String.mk cap)
  | none =>
    match jsIndexOf text.data braceOpen, jsLastIndexOf text.data braceClose with
    | some startIndex, some endIndex =>
      some (String.mk (jsSubstring text.data startIndex (endIndex + 1)))
    | _, _ => none

/-- State machine of the balanced-brace loop in
src/src/models/providers/gemini-provider.ts lines 48-64: walk the whole text
counting braces; when the count is zero at an opening brace, record the
position; when a closing brace brings the count back to zero with a recorded
start, return the substring bounds. -/
def braceScan : List Char → Int → Option Nat → Nat → Option (Nat × Nat)
  | [], _, _, _ => none
  | c :: rest, braceCount, jsonStartIndex, i =>
    if c == braceOpen then
      braceScan rest (braceCount + 1)
        (if braceCount == 0 then some i else jsonStartIndex) (i + 1)
    else if c == braceClose then
      match jsonStartIndex with
      | some s =>
        if braceCount - 1 == 0 then some (s, i + 1)
        else braceScan rest (braceCount - 1) (some s) (i + 1)
      | none => braceScan rest (braceCount - 1) none (i + 1)
    else braceScan rest braceCount jsonStartIndex (i + 1)

namespace GeminiProvider

/-- extractJSON from src/src/models/providers/gemini-provider.ts lines 33-68:
fenced block first; then, if both a first opening brace and a last closing
brace exist, the balanced-brace scan; if the scan never closes, the naive
first-to-last slice as fallback. -/
def extractJSON (text : String) : Option String :=
  match fencedMatch text.data with
  | some cap => some (String.mk cap)
  | none =>
    match jsIndexOf text.data braceOpen, jsLastIndexOf text.data braceClose with
    | some startIndex, some endIndex =>
      match braceScan text.data 0 none 0 with
      | some p => some (String.mk (jsSubstring text.data p.1 p.2))
      | none => some (String.mk (jsSubstring text.data startIndex (endIndex + 1)))
    | _, _ => none

end GeminiProvider

/-- Predicate on the body of a balanced-brace group: scanning from depth `d`,
the depth reaches zero for the first time exactly at the last character.
`braceOpen :: body` with `closedAt body 1` is a single balanced-brace object:
the nesting stays positive until the final closing brace. -/
def closedAt : List Char → Int → Bool
  | [], _ => false
  | c :: rest, d =>
    let d2 := if c == braceOpen then d + 1 else if c == braceClose then d - 1 else d
    if d2 == 0 then rest.isEmpty else closedAt rest d2

/-! Model of the JSON grammar (ECMA-404), used to state that an extracted
string does or does not parse under the JavaScript `JSON.parse` builtin.
Each `...Rest` function consumes one grammatical element from the front of
the character list and returns the remainder, or `none` on a syntax error.
Recursion is bounded by an explicit fuel parameter. -/

/-- JSON whitespace. -/
def jsonWsChar (c : Char) : Bool :=
  c == ' ' || c == '\t' || c == '\n' || c == '\r'

/-- Skip leading JSON whitespace. -/
def skipJsonWs (cs : List Char) : List Char := cs.dropWhile jsonWsChar

/-- Hexadecimal digit test. -/
def isHexChar (c : Char) : Bool :=
  c.isDigit || (97 ≤ c.toNat && c.toNat ≤ 102) || (65 ≤ c.toNat && c.toNat ≤ 70)

/-- Consume the body of a JSON string literal, the opening quote already
consumed; return the remainder after the closing quote. -/
def jsonStringRest : Nat → List Char → Option (List Char)
  | 0, _ => none
  | _ + 1, [] => none
  | fuel + 1, c :: rest =>
    if c == '"' then some rest
    else if c == '\\' then
      match rest with
      | [] => none
      | e :: rest2 =>
        if e == 'u' then
          match rest2 with
          | h1 :: h2 :: h3 :: h4 :: rest3 =>
            if isHexChar h1 && isHexChar h2 && isHexChar h3 && isHexChar h4 then
              jsonStringRest fuel rest3
            else none
          | _ => none
        else if e == '"' || e == '\\' || e == '/' || e == 'b' || e == 'f' ||
            e == 'n' || e == 'r' || e == 't' then
          jsonStringRest fuel rest2
        else none
    else if c.toNat < 32 then none
    else jsonStringRest fuel rest

/-- Consume one or more decimal digits. -/
def jsonDigits (cs : List Char) : Option (List Char) :=
  if (cs.takeWhile Char.isDigit).isEmpty then none
  else some (cs.dropWhile Char.isDigit)

/-- Consume an optional exponent part. -/
def jsonExpPart (cs : List Char) : Option (List Char) :=
  match cs with
  | c :: t =>
    if c == 'e' || c == 'E' then
      match t with
      | s :: t2 => if s == '+' || s == '-' then jsonDigits t2 else jsonDigits t
      | [] => none
    else some cs
  | [] => some cs

/-- Consume an optional fraction part, then the optional exponent. -/
def jsonFracPart (cs : List Char) : Option (List Char) :=
  match cs with
  | c :: t =>
    if c == '.' then
      match jsonDigits t with
      | some r => jsonExpPart r
      | none => none
    else jsonExpPart cs
  | [] => some cs

/-- Consume a JSON number. -/
def jsonNumberRest (cs : List Char) : Option (List Char) :=
  let cs1 := match cs with
    | c :: t => if c == '-' then t else cs
    | [] => cs
  match cs1 with
  | c :: t =>
    if c == '0' then jsonFracPart t
    else if c.isDigit then jsonFracPart (cs1.dropWhile Char.isDigit)
    else none
  | [] => none

mutual

/-- Consume one JSON value (object, array, string, number, or literal). -/
def jsonValueRest : Nat → List Char → Option (List Char)
  | 0, _ => none
  | fuel + 1, cs =>
    match skipJsonWs cs with
    | [] => none
    | c :: t =>
      if c == braceOpen then jsonObjectRest fuel t
      else if c == '[' then jsonArrayRest fuel t
      else if c == '"' then jsonStringRest (t.length + 1) t
      else if c == 't' then
        if agreesAt ['r', 'u', 'e'] t then some (t.drop 3) else none
      else if c == 'f' then
        if agreesAt ['a', 'l', 's', 'e'] t then some (t.drop 4) else none
      else if c == 'n' then
        if agreesAt ['u', 'l', 'l'] t then some (t.drop 3) else none
      else if c == '-' || c.isDigit then jsonNumberRest (c :: t)
      else none

/-- Consume the rest of an object, the opening brace already consumed. -/
def jsonObjectRest : Nat → List Char → Option (List Char)
  | 0, _ => none
  | fuel + 1, cs =>
    match skipJsonWs cs with
    | [] => none
    | c :: t =>
      if c == braceClose then some t
      else jsonMembersRest fuel (c :: t)

/-- Consume one or more `"key": value` members followed by the closing brace. -/
def jsonMembersRest : Nat → List Char → Option (List Char)
  | 0, _ => none
  | fuel + 1, cs =>
    match skipJsonWs cs with
    | [] => none
    | c :: t =>
      if c == '"' then
        match jsonStringRest (t.length + 1) t with
        | none => none
        | some afterKey =>
          match skipJsonWs afterKey with
          | k :: t2 =>
            if k == ':' then
              match jsonValueRest fuel t2 with
              | none => none
              | some afterVal =>
                match skipJsonWs afterVal with
                | m :: t3 =>
                  if m == ',' then jsonMembersRest fuel t3
                  else if m == braceClose then some t3
                  else none
                | [] => none
            else none
          | [] => none
      else none

/-- Consume the rest of an array, the opening bracket already consumed. -/
def jsonArrayRest : Nat → List Char → Option (List Char)
  | 0, _ => none
  | fuel + 1, cs =>
    match skipJsonWs cs with
    | [] => none
    | c :: t =>
      if c == ']' then some t
      else jsonElementsRest fuel (c :: t)

/-- Consume one or more array elements followed by the closing bracket. -/
def jsonElementsRest : Nat → List Char → Option (List Char)
  | 0, _ => none
  | fuel + 1, cs =>
    match jsonValueRest fuel cs with
    | none => none
    | some afterVal =>
      match skipJsonWs afterVal with
      | m :: t =>
        if m == ',' then jsonElementsRest fuel t
        else if m == ']' then some t
        else none
      | [] => none

end

/-- Whole-text JSON parse test, modelling success of `JSON.parse`. -/
def jsonParses (s : String) : Bool :=
  match jsonValueRest (4 * s.data.length + 8) s.data with
  | some rest => (skipJsonWs rest).isEmpty
  | none => false

/-- Test whether a string is the text of a JSON object: after leading
whitespace it must start with an opening brace and parse as JSON. -/
def isJSONObjectText (s : String) : Bool :=
  match skipJsonWs s.data with
  | [] => false
  | c :: _ => c == braceOpen && jsonParses s

/-! Web-search client (src/src/core/web-search.ts lines 47-82). -/

/-- Options object passed to `firecrawl.search`: the fixed 30-second timeout
and the depth-derived result-count limit. -/
structure SearchParams where
  timeout : Nat
  limit : Nat
deriving DecidableEq

/-- One item of the search response; only the optional extracted text content
is relevant to the client. -/
structure Item where
  markdown : Option String
deriving DecidableEq

/-- Modelled from the spec: `trimPrompt` lives in
src/models/providers/ai-models.ts, a repository file that is not among the
provided sources.  Section 4.4 of the spec describes it as truncating content
to a size budget of about 15,000 characters; it is modelled as plain
truncation to at most `n` characters. -/
def trimPrompt (s : String) (n : Nat) : String := String.mk (s.data.take n)

namespace WebSearch

/-- Search options built by `searchWeb` for a given depth. -/
def searchParamsFor (depth : Nat) : SearchParams :=
  { timeout := 30000, limit := min (depth * 2) 5 }

/-- Content cleaning applied to one response item: `lodash.compact` drops
falsy entries, so an absent or empty `markdown` yields nothing, and a present
one is trimmed to 15,000 characters (an empty trim result would also be
dropped by `compact`). -/
def itemContent (it : Item) : Option String :=
  match it.markdown with
  | none => none
  | some c =>
    if c = "" then none
    else if trimPrompt c 15000 = "" then none
    else some (trimPrompt c 15000)

/-- searchWeb from src/src/core/web-search.ts lines 47-82.  The firecrawl
client is an oracle `fs` receiving the query, the request options, and the
attempt number; the call goes through the retry wrapper (the concurrency
limiter does not change the value and is not modelled); any unrecoverable
failure is caught and yields the empty list; on success the items are cleaned
and the absent-content ones dropped.  The trailing fixed one-second delay
does not affect the returned value. -/
def searchWeb (fs : String → SearchParams → Nat → Except Err (List Item))
    (query : String) (depth : Nat) : List String :=
  match (WebSearch.retry (fun attempt => fs query (searchParamsFor depth) attempt)
      0 3 2000).1 with
  | .error _ => []
  | .ok items => items.filterMap itemContent

end WebSearch

namespace Feedback

/-- Validation pipeline applied to one model response inside
`generateFeedback`: extract the JSON substring, parse it (the `JSON.parse`
builtin together with the `.questions` array-of-strings access is the oracle
`parse`; a non-array or exception surfaces as its error), keep the questions
that are non-blank after trimming and contain a question mark (the
`typeof q === 'string'` test is absorbed by the oracle typing), trim them,
truncate to `numQuestions`, and fail when nothing survives. -/
def validQuestions (parse : String → Except Err (List String)) (text : String)
    (numQuestions : Nat) : Except Err (List String) :=
  match extractJSONNaive text with
  | none => .error ⟨"No JSON found in response", none⟩
  | some jsonStr =>
    match parse jsonStr with
    | .error e => .error e
    | .ok qs =>
      let validQs := ((qs.filter (fun q => jsTrim q != "" && strIncludes q "?")).map
        (fun q => jsTrim q)).take numQuestions
      if validQs = [] then .error ⟨"No valid questions found in response", none⟩
      else .ok validQs

/-- The canned fallback questions returned when everything else failed,
truncated to the requested count by `.slice(0, numQuestions)`. -/
def fallbackQuestions (query : String) (numQuestions : Nat) : List String :=
  (["What specific aspects of \"" ++ query ++ "\" are you most interested in?",
    "What are your main priorities or goals for this research?",
    "Are there any specific limitations or constraints we should consider?"]).take
    numQuestions

/-- Outcome of the try-block of `generateFeedback`: the first model call
through the retry wrapper, its validation, and on validation failure the
amended-prompt second call (the oracle `gen` receives the prompt phase, 0 for
the original prompt and 1 for the amended one, and the attempt number). -/
def feedbackOutcome (gen : Nat → Nat → Except Err String)
    (parse : String → Except Err (List String)) (numQuestions : Nat) :
    Except Err (List String) :=
  match (Feedback.retry (gen 0) 0 3 1000).1 with
  | .error e => .error e
  | .ok text =>
    match validQuestions parse text numQuestions with
    | .ok v => .ok v
    | .error _ =>
      match (Feedback.retry (gen 1) 0 3 1000).1 with
      | .error e => .error e
      | .ok retryText => validQuestions parse retryText numQuestions

/-- generateFeedback from src/src/core/feedback.ts lines 54-156: the
try-block outcome if it succeeded, the canned fallback otherwise. -/
def generateFeedback (gen : Nat → Nat → Except Err String)
    (parse : String → Except Err (List String)) (query : String)
    (numQuestions : Nat := 3) : List String :=
  match feedbackOutcome gen parse numQuestions with
  | .ok v => v
  | .error _ => fallbackQuestions query numQuestions

end Feedback

/-! Chunking step of processContents (research-engine source, unnamed
part_001, lines 129-144), modelled on character lists. -/

namespace ResearchEngine

/-- The two-character separator inserted between appended content items. -/
def sepChars : List Char := ['\n', '\n']

/-- The chunking for-loop: `chunks` and `currentChunk` are the loop state;
a chunk is closed when `currentChunk.length + content.length` exceeds 15000
(the separator added on append is not counted by this check), and a
non-empty trailing chunk is pushed at the end. -/
def goChunks : List (List Char) → List (List Char) → List Char → List (List Char)
  | [], chunks, currentChunk =>
    if currentChunk = [] then chunks else chunks ++ [currentChunk]
  | content :: rest, chunks, currentChunk =>
    if currentChunk.length + content.length > 15000 then
      goChunks rest (chunks ++ [currentChunk]) content
    else
      goChunks rest chunks (currentChunk ++ sepChars ++ content)

/-- The chunking step of processContents. -/
def splitChunks (contents : List (List Char)) : List (List Char) :=
  goChunks contents [] []

/-- Character rendering of one chunk from its items: the first chunk (grown
from the initial empty string) carries a separator before every item; a chunk
started by an overflowing item carries that item bare, with separators before
the following items. -/
def renderChunk (initStyle : Bool) (items : List (List Char)) : List Char :=
  if initStyle then (items.map (fun c => sepChars ++ c)).flatten
  else
    match items with
    | [] => []
    | h :: t => h ++ (t.map (fun c => sepChars ++ c)).flatten

/-- Item-level image of the chunking loop: the same greedy grouping, with
chunks kept as lists of the input items instead of rendered characters. -/
def goItems : List (List Char) → List (List (List Char)) → List (List Char) → Bool →
    List (List (List Char))
  | [], chunksI, curI, flag =>
    if renderChunk flag curI = [] then chunksI else chunksI ++ [curI]
  | content :: rest, chunksI, curI, flag =>
    if (renderChunk flag curI).length + content.length > 15000 then
      goItems rest (chunksI ++ [curI]) [content] false
    else
      goItems rest chunksI (curI ++ [content]) flag

/-- Item-level chunking of a content list. -/
def splitChunksItems (contents : List (List Char)) : List (List (List Char)) :=
  goItems contents [] [] true

/-- Render a chunk list: the head in initial style, the rest in
overflow style. -/
def renderChunksFrom (flag : Bool) : List (List (List Char)) → List (List Char)
  | [] => []
  | h :: t => renderChunk flag h :: t.map (renderChunk false)

/-- Render the whole item-level chunking. -/
def renderChunks (l : List (List (List Char))) : List (List Char) :=
  renderChunksFrom true l

end ResearchEngine

/-- An oversized content item used by the claim C8 counterexample. -/
def bigItemA : List Char := List.replicate 7000 'a'

/-- A second content item sized so that appending it passes the bound check
but overshoots the bound once the separator is counted. -/
def bigItemB : List Char := List.replicate 7998 'b'

/-! Merge step of processContents (research-engine source, unnamed part_001,
lines 217-232). -/

/-- One key finding: a title and its detail lines. -/
structure Finding where
  title : String
  details : List String
deriving DecidableEq

/-- The parsed per-chunk analysis result. -/
structure ChunkResult where
  summary : String
  keyFindings : List Finding
  sources : List String
deriving DecidableEq

/-- The value returned by processContents. -/
structure Analysis where
  summary : String
  keyFindings : List Finding
  sources : List String
deriving DecidableEq

namespace ResearchEngine

/-- Model of the JavaScript
`filter((f, i, arr) => arr.findIndex(g => g.title === f.title) === i)`:
walk the list with the element index, keeping an element exactly when the
first index carrying its title is its own. -/
def dedupAux (l : List Finding) : List Finding → Nat → List Finding
  | [], _ => []
  | f :: fs, i =>
    if l.findIdx (fun g => g.title == f.title) = i then f :: dedupAux l fs (i + 1)
    else dedupAux l fs (i + 1)

/-- Deduplicate findings by title, first occurrence kept. -/
def dedupByTitle (l : List Finding) : List Finding := dedupAux l l 0

/-- Model of `[...new Set(xs)]`: JavaScript sets preserve insertion order, so
the spread keeps the first occurrence of each string. -/
def jsSetDedupGo (seen : List String) : List String → List String
  | [] => []
  | x :: xs =>
    if x ∈ seen then jsSetDedupGo seen xs else x :: jsSetDedupGo (x :: seen) xs

/-- Deduplicate strings by exact equality, first occurrence kept. -/
def jsSetDedup (l : List String) : List String := jsSetDedupGo [] l

/-- The merge of the per-chunk results: summaries joined with blank lines,
findings flattened then deduplicated by title, sources flattened then
deduplicated by string equality. -/
def mergeStep (chunkResults : List ChunkResult) : Analysis :=
  { summary := String.intercalate "\n\n" (chunkResults.map (fun r => r.summary)),
    keyFindings := dedupByTitle ((chunkResults.map (fun r => r.keyFindings)).flatten),
    sources := jsSetDedup ((chunkResults.map (fun r => r.sources)).flatten) }

/-- Specification-side first-occurrence recursion: keep a finding exactly
when its title has not been seen among the earlier findings. -/
def firstOccByTitle (seen : List String) : List Finding → List Finding
  | [] => []
  | f :: fs =>
    if f.title ∈ seen then firstOccByTitle seen fs
    else f :: firstOccByTitle (f.title :: seen) fs

/-- Specification-side first-occurrence characterization for strings: an
element of the list is kept exactly when its own index is the first index
carrying its value.  For input ["a","b","a"] this keeps ["a","b"]; a
keep-last deduplication would instead produce ["b","a"] and fail this
characterization. -/
def firstIdxDedupAux (l : List String) : List String → Nat → List String
  | [], _ => []
  | x :: xs, i =>
    if l.findIdx (fun y => y == x) = i then x :: firstIdxDedupAux l xs (i + 1)
    else firstIdxDedupAux l xs (i + 1)

/-- Keep exactly the positions that are the first occurrence of their
value. -/
def firstIdxDedup (l : List String) : List String := firstIdxDedupAux l l 0

end ResearchEngine

/-! Search-query generation and full processContents (research-engine source,
unnamed part_001), and the orchestrator. -/

namespace ResearchEngine

/-- Try-block of generateSerpQueries (part_001 lines 57-116): one model call
through the retry wrapper, extraction, parsing (the oracle `parseQ` models
`JSON.parse(s).queries` as an array of strings), trimming, filtering of blank
queries, truncation to `breadth`, and failure when nothing survives. -/
def serpOutcome (gen : Nat → Except Err String)
    (parseQ : String → Except Err (List String)) (breadth : Nat) :
    Except Err (List String) :=
  match (ResearchEngine.retry gen 0 3 2000).1 with
  | .error e => .error e
  | .ok text =>
    match extractJSONNaive text with
    | none => .error ⟨"No JSON found in response", none⟩
    | some jsonStr =>
      match parseQ jsonStr with
      | .error e => .error e
      | .ok qs =>
        let validQueries := ((qs.filter (fun q => jsTrim q != "")).map
          (fun q => jsTrim q)).take breadth
        if validQueries = [] then .error ⟨"No valid queries found in response", none⟩
        else .ok validQueries

/-- generateSerpQueries: the try-block outcome, or on any failure the
mechanical variations of the original query truncated to `breadth`. -/
def generateSerpQueries (gen : Nat → Except Err String)
    (parseQ : String → Except Err (List String)) (query : String)
    (breadth : Nat) : List String :=
  match serpOutcome gen parseQ breadth with
  | .ok v => v
  | .error _ =>
    ([query, query ++ " comparison", query ++ " review",
      query ++ " worth it"]).take breadth

/-- processContents (part_001 lines 118-244): chunk the contents, run each
chunk through the model (oracle `genA`, indexed by chunk number and attempt)
with retry, extract and parse (oracle `parseA` models `JSON.parse` of the
chunk analysis), keep results whose summary is truthy (a present keyFindings
array is always truthy), and merge; when no chunk produced a result, the
degraded raw-findings analysis is returned by the surrounding catch. -/
def processContents (genA : Nat → Nat → Except Err String)
    (parseA : String → Except Err ChunkResult) (query : String)
    (contents : List String) : Analysis :=
  let chunks := splitChunks (contents.map (fun c => c.data))
  let chunkResults := (List.range chunks.length).filterMap (fun i =>
    match (ResearchEngine.retry (genA i) 0 3 2000).1 with
    | .error _ => none
    | .ok text =>
      match extractJSONNaive text with
      | none => none
      | some jsonStr =>
        match parseA jsonStr with
        | .error _ => none
        | .ok parsed => if parsed.summary ≠ "" then some parsed else none)
  if chunkResults = [] then
    { summary := "Error analyzing results. Here are the raw findings:",
      keyFindings :=
        [{ title := "Raw Results",
           details := contents.map (fun c => String.mk (c.data.take 200) ++ "...") }],
      sources := ["Error processing sources"] }
  else mergeStep chunkResults

end ResearchEngine

/-- The final report shape. -/
structure Report where
  executiveSummary : String
  keyFindings : List Finding
  sources : List String
deriving DecidableEq

/-- The object returned by deepResearch. -/
structure ResearchResult where
  query : String
  feedbackQuestions : Option (List String)
  searchQueries : List String
  report : Report
  error : Option String
deriving DecidableEq

/-- The empty report of the sentinel branch. -/
def emptyReport : Report := { executiveSummary := "", keyFindings := [], sources := [] }

/-- The degraded report of the orchestrator's catch branch. -/
def degradedReport : Report :=
  { executiveSummary := "Research could not be completed due to an error.",
    keyFindings := [], sources := [] }

/-- The orchestrator's internal steps, as fallible operations: this is the
interface deepResearch programs against, and quantifying over it captures
"whatever its internal steps do, including raising". -/
structure Steps where
  generateFeedback : String → Nat → Except Err (List String)
  generateSerpQueries : String → Nat → Except Err (List String)
  searchWeb : String → Nat → Except Err (List String)
  processContents : String → List String → Except Err Analysis

/-- The sequential search loop of deepResearch (part_001 lines 272-281); the
inter-query delay does not affect the value. -/
def runSearches (st : Steps) : List String → Nat → Except Err (List (List String))
  | [], _ => .ok []
  | q :: qs, depth =>
    match st.searchWeb q depth with
    | .error e => .error e
    | .ok r =>
      match runSearches st qs depth with
      | .error e => .error e
      | .ok rs => .ok (r :: rs)

/-- The try-block of deepResearch (part_001 lines 247-296): the sentinel
branch for breadth = depth = 1, otherwise query generation, sequential
search, flattening, and analysis. -/
def deepResearchBody (st : Steps) (query : String) (breadth depth : Nat) :
    Except Err ResearchResult :=
  if breadth = 1 ∧ depth = 1 then
    match st.generateFeedback query 3 with
    | .error e => .error e
    | .ok fq =>
      .ok
        { query := query, feedbackQuestions := some fq,
          searchQueries := [], report := emptyReport, error := none }
  else
    match st.generateSerpQueries query breadth with
    | .error e => .error e
    | .ok searchQueries =>
      match runSearches st searchQueries depth with
      | .error e => .error e
      | .ok searchResults =>
        match st.processContents query searchResults.flatten with
        | .error e => .error e
        | .ok analysis =>
          .ok
            { query := query, feedbackQuestions := none,
              searchQueries := searchQueries,
              report :=
                { executiveSummary := analysis.summary,
                  keyFindings := analysis.keyFindings,
                  sources := analysis.sources },
              error := none }

/-- deepResearch from part_001 lines 246-310: the try-block result, or on any
escaped exception the degraded error-carrying result. -/
def deepResearch (st : Steps) (query : String) (breadth depth : Nat) :
    ResearchResult :=
  match deepResearchBody st query breadth depth with
  | .ok r => r
  | .error e =>
    { query := query, feedbackQuestions := none, searchQueries := [],
      report := degradedReport,
      error := some ("Research failed: " ++ e.message) }

/-- The concrete steps of the repository, assembled from the embedded
generation clients and search client over their oracles; each is total, so
each step is wrapped as a success. -/
def mkSteps (genF : Nat → Nat → Except Err String)
    (parseF : String → Except Err (List String))
    (genQ : Nat → Except Err String)
    (parseQ : String → Except Err (List String))
    (genA : Nat → Nat → Except Err String)
    (parseA : String → Except Err ChunkResult)
    (fs : String → SearchParams → Nat → Except Err (List Item)) : Steps :=
  { generateFeedback := fun q n => .ok (Feedback.generateFeedback genF parseF q n),
    generateSerpQueries := fun q b =>
      .ok (ResearchEngine.generateSerpQueries genQ parseQ q b),
    searchWeb := fun q d => .ok (WebSearch.searchWeb fs q d),
    processContents := fun q cs =>
      .ok (ResearchEngine.processContents genA parseA q cs) }

/-! Theorems: the helper lemmas and the claim theorems, witnesses and
counterexamples. -/

/-! Helper lemmas about the web-search retry wrapper. -/

/-- If the first `k` attempts fail without a 429 status and attempt `k`
succeeds, the web-search retry returns the success value after total wait
`b * (2 ^ k - 1)` (waits b, 2b, 4b, ...). -/
theorem WebSearch.retry_ok_after_failures {α : Type} :
    ∀ (k a r b : Nat) (fn : Nat → Except Err α) (v : α), k ≤ r →
    (∀ i, i < k → ∃ e, fn (a + i) = Except.error e ∧ e.statusCode ≠ some 429) →
    fn (a + k) = Except.ok v →
    WebSearch.retry fn a r b = (Except.ok v, b * (2 ^ k - 1)) := by
  intro k
  induction k with
  | zero =>
    intro a r b fn v _ _ hsucc
    simp only [Nat.add_zero] at hsucc
    simp [WebSearch.retry, hsucc]
  | succ k ih =>
    intro a r b fn v hk hfail hsucc
    obtain ⟨e, he, hnot⟩ := hfail 0 (Nat.succ_pos k)
    simp only [Nat.add_zero] at he
    obtain ⟨r', rfl⟩ : ∃ r', r = r' + 1 := by
      cases r with
      | zero => omega
      | succ r' => exact ⟨r', rfl⟩
    have hwait : (e.statusCode == some 429) = false := by
      simp [beq_eq_false_iff_ne, hnot]
    have hrec : WebSearch.retry fn (a + 1) r' (b * 2) =
        (Except.ok v, (b * 2) * (2 ^ k - 1)) := by
      apply ih (a + 1) r' (b * 2) fn v (by omega)
      · intro i hi
        obtain ⟨e', he', hn'⟩ := hfail (i + 1) (by omega)
        exact ⟨e', by rw [show a + 1 + i = a + (i + 1) by omega]; exact he', hn'⟩
      · rw [show a + 1 + k = a + (k + 1) by omega]; exact hsucc
    rw [WebSearch.retry, he]
    simp only [hwait, Bool.false_eq_true, if_false]
    rw [hrec]
    have h2 : 1 ≤ 2 ^ k := Nat.one_le_two_pow
    simp only [Prod.mk.injEq, true_and]
    show b + b * 2 * (2 ^ k - 1) = b * (2 ^ (k + 1) - 1)
    obtain ⟨n, hn⟩ : ∃ n, 2 ^ k = n + 1 := ⟨2 ^ k - 1, by omega⟩
    rw [pow_succ, hn]
    have hm : (n + 1) * 2 - 1 = 2 * n + 1 := by omega
    rw [hm, Nat.add_sub_cancel]
    ring

/-- If every attempt up to index `r` fails, the web-search retry propagates the
last error (the outcome of attempt `r`). -/
theorem WebSearch.retry_exhausted {α : Type} :
    ∀ (r a b : Nat) (fn : Nat → Except Err α),
    (∀ i, i ≤ r → ∃ e, fn (a + i) = Except.error e) →
    (WebSearch.retry fn a r b).1 = fn (a + r) := by
  intro r
  induction r with
  | zero =>
    intro a b fn hfail
    obtain ⟨e, he⟩ := hfail 0 (Nat.le_refl 0)
    simp only [Nat.add_zero] at he
    simp [WebSearch.retry, he]
  | succ r ih =>
    intro a b fn hfail
    obtain ⟨e, he⟩ := hfail 0 (Nat.zero_le _)
    simp only [Nat.add_zero] at he
    rw [WebSearch.retry, he]
    have := ih (a + 1) ((if e.statusCode == some 429 then b * 4 else b) * 2) fn ?h
    · rw [show a + 1 + r = a + (r + 1) by omega] at this
      simpa using this
    case h =>
      intro i hi
      obtain ⟨e', he'⟩ := hfail (i + 1) (by omega)
      exact ⟨e', by rw [show a + 1 + i = a + (i + 1) by omega]; exact he'⟩

/-- Claim C4: for the web-search retry wrapper with retry count `r` and base
delay `b`: an operation failing exactly `k ≤ r` times (all failures
non-rate-limited) and then succeeding makes `retry` return the success value
with total wait `b * (2 ^ k - 1)` (the waits being b, 2b, 4b, ...); an
operation failing at every attempt `0, ..., r` (that is, `r + 1` failures)
makes `retry` propagate the final error to the caller. -/
theorem claim4_retry_backoff {α : Type} (fn : Nat → Except Err α) (r b : Nat) :
    (∀ k v, k ≤ r →
      (∀ i, i < k → ∃ e, fn i = Except.error e ∧ e.statusCode ≠ some 429) →
      fn k = Except.ok v →
      WebSearch.retry fn 0 r b = (Except.ok v, b * (2 ^ k - 1))) ∧
    ((∀ i, i ≤ r → ∃ e, fn i = Except.error e) →
      (WebSearch.retry fn 0 r b).1 = fn r) := by
  constructor
  · intro k v hk hfail hsucc
    have := WebSearch.retry_ok_after_failures k 0 r b fn v hk ?f ?s
    · exact this
    case f => intro i hi; simpa using hfail i hi
    case s => simpa using hsucc
  · intro hfail
    have := WebSearch.retry_exhausted r 0 b fn (by intro i hi; simpa using hfail i hi)
    simpa using this

/-- Witness for claim C4: an operation failing twice (non-rate-limited) then
succeeding returns the success value with waits 2000 + 4000 = 2000 * (2^2 - 1);
an operation failing at all four attempts propagates the last error. -/
theorem claim4_witness :
    WebSearch.retry (fun i => if i < 2 then Except.error ⟨"boom", none⟩ else Except.ok 7)
      0 3 2000 = (Except.ok 7, 6000) ∧
    (WebSearch.retry (fun i => (Except.error ⟨"bad " ++ toString i, none⟩ : Except Err Nat))
      0 3 2000).1 = Except.error ⟨"bad 3", none⟩ := by
  constructor
  · have h := (claim4_retry_backoff
      (fun i => if i < 2 then Except.error ⟨"boom", none⟩ else Except.ok 7) 3 2000).1
      2 7 (by decide)
      (by intro i hi
          refine ⟨⟨"boom", none⟩, ?_, by decide⟩
          interval_cases i <;> rfl)
      (by rfl)
    simpa using h
  · have h := (claim4_retry_backoff
      (fun i => (Except.error ⟨"bad " ++ toString i, none⟩ : Except Err Nat)) 3 2000).2
      (by intro i _; exact ⟨⟨"bad " ++ toString i, none⟩, rfl⟩)
    simpa using h

/-- Claim C3 counterexample, refuting both halves of the claim.  First, in
the feedback retry wrapper (src/src/core/feedback.ts) a failure whose message
contains "quota" is classified as rate-limited but the first wait is
`2 * baseDelay = 2000`, not `4 * baseDelay = 4000` as the claim states for
every wrapper.  Second, in the web-search retry wrapper the same failure (a
"quota" message without a 429 status code) is not classified as rate-limited
at all: the first wait is `baseDelay = 1000`, not `4 * baseDelay`. -/
theorem claim3_counterexample :
    (Feedback.retry (fun i => if i == 0 then Except.error ⟨"quota exceeded", none⟩
      else Except.ok 0) 0 3 1000 = (Except.ok 0, 2000) ∧ (2000 : Nat) ≠ 4 * 1000) ∧
    (WebSearch.retry (fun i => if i == 0 then Except.error ⟨"quota exceeded", none⟩
      else Except.ok 0) 0 3 1000 = (Except.ok 0, 1000) ∧ (1000 : Nat) ≠ 4 * 1000) := by
  refine ⟨⟨?_, ?_⟩, ?_, ?_⟩
  · decide
  · decide
  · decide
  · decide

/-- Claim C3 (amended): each retry wrapper applies its own rate-limit
classification — the research-engine and feedback wrappers test whether the
error message contains "429" or "quota", while the web-search wrapper tests
whether the status code equals 429 — and a rate-limited failure makes the
first wait before retrying `4 * baseDelay` in the research-engine and
web-search wrappers but `2 * baseDelay` in the feedback wrapper (a
non-rate-limited failure waits `baseDelay` in all three). -/
theorem claim3_amended {α : Type} (e : Err) (b r : Nat) (v : α) :
    ResearchEngine.retry (fun i => if i == 0 then Except.error e else Except.ok v)
      0 (r + 1) b = (Except.ok v, if isRateLimitMsg e then b * 4 else b) ∧
    Feedback.retry (fun i => if i == 0 then Except.error e else Except.ok v)
      0 (r + 1) b = (Except.ok v, if isRateLimitMsg e then b * 2 else b) ∧
    WebSearch.retry (fun i => if i == 0 then Except.error e else Except.ok v)
      0 (r + 1) b = (Except.ok v, if e.statusCode == some 429 then b * 4 else b) := by
  refine ⟨?_, ?_, ?_⟩
  · rw [ResearchEngine.retry]
    simp only [show ((0 : Nat) == 0) = true from rfl, if_true]
    rw [ResearchEngine.retry]
    simp
  · rw [Feedback.retry]
    simp only [show ((0 : Nat) == 0) = true from rfl, if_true]
    rw [Feedback.retry]
    simp
  · rw [WebSearch.retry]
    simp only [show ((0 : Nat) == 0) = true from rfl, if_true]
    rw [WebSearch.retry]
    simp

/-! Helper lemmas about indexOf, lastIndexOf and the balanced-brace scan. -/

/-- `jsIndexOfAux` returns `none` exactly when the character is absent. -/
theorem jsIndexOfAux_eq_none (c : Char) :
    ∀ (s : List Char) (i : Nat), jsIndexOfAux c s i = none ↔ c ∉ s := by
  intro s
  induction s with
  | nil => intro i; simp [jsIndexOfAux]
  | cons x xs ih =>
    intro i
    rw [jsIndexOfAux]
    by_cases hx : x = c
    · subst hx; simp
    · have hb : (x == c) = false := by simp [hx]
      rw [hb]
      simp only [Bool.false_eq_true, if_false, ih, List.mem_cons]
      constructor
      · intro h hc
        rcases hc with hc | hc
        · exact hx hc.symm
        · exact h hc
      · intro h hc
        exact h (Or.inr hc)

/-- A successful `jsIndexOfAux` search splits the list at the first
occurrence. -/
theorem jsIndexOfAux_eq_some (c : Char) :
    ∀ (s : List Char) (i j : Nat), jsIndexOfAux c s i = some j →
    ∃ u v, s = u ++ c :: v ∧ j = i + u.length ∧ c ∉ u := by
  intro s
  induction s with
  | nil => intro i j h; simp [jsIndexOfAux] at h
  | cons x xs ih =>
    intro i j h
    rw [jsIndexOfAux] at h
    by_cases hx : x = c
    · subst hx
      simp only [beq_self_eq_true, if_true, Option.some.injEq] at h
      exact ⟨[], xs, rfl, by simp [h.symm], by simp⟩
    · have hb : (x == c) = false := by simp [hx]
      rw [hb] at h
      simp only [Bool.false_eq_true, if_false] at h
      obtain ⟨u, v, hs, hj, hnu⟩ := ih (i + 1) j h
      refine ⟨x :: u, v, by rw [hs, List.cons_append], by simp [hj]; omega, ?_⟩
      simp only [List.mem_cons, not_or]
      exact ⟨fun hc => hx hc.symm, hnu⟩

/-- `jsLastIndexOf` returns `none` exactly when the character is absent. -/
theorem jsLastIndexOf_eq_none (s : List Char) (c : Char) :
    jsLastIndexOf s c = none ↔ c ∉ s := by
  rw [jsLastIndexOf]
  cases hr : jsIndexOfAux c s.reverse 0 with
  | none =>
    have := (jsIndexOfAux_eq_none c s.reverse 0).mp hr
    simp only [List.mem_reverse] at this
    simp [this]
  | some k =>
    obtain ⟨u, v, hs, _, _⟩ := jsIndexOfAux_eq_some c s.reverse 0 k hr
    have hmem : c ∈ s := by
      rw [← List.mem_reverse, hs]
      simp
    simp [hmem]

/-- A successful `jsLastIndexOf` search splits the list at the last
occurrence. -/
theorem jsLastIndexOf_eq_some (s : List Char) (c : Char) (b : Nat)
    (h : jsLastIndexOf s c = some b) :
    ∃ u v, s = u ++ c :: v ∧ b = u.length ∧ c ∉ v := by
  rw [jsLastIndexOf] at h
  cases hr : jsIndexOfAux c s.reverse 0 with
  | none => rw [hr] at h; simp at h
  | some k =>
    rw [hr] at h
    simp only [Option.some.injEq] at h
    obtain ⟨u, v, hs, hk, hnu⟩ := jsIndexOfAux_eq_some c s.reverse 0 k hr
    simp only [Nat.zero_add] at hk
    have hrev : s = v.reverse ++ c :: u.reverse := by
      have h2 := congrArg List.reverse hs
      rw [List.reverse_reverse] at h2
      rw [h2, List.reverse_append, List.reverse_cons, List.append_assoc]
      simp
    have hlen : s.length = u.length + 1 + v.length := by
      have h3 := congrArg List.length hs
      simp only [List.length_reverse, List.length_append, List.length_cons] at h3
      omega
    refine ⟨v.reverse, u.reverse, hrev, ?_, ?_⟩
    · rw [List.length_reverse]
      omega
    · simpa [List.mem_reverse] using hnu

/-- Claim C10: for text with no fenced code block, the naive extractJSON
(shared by feedback.ts and the research engine) returns `none` exactly when
the text lacks an opening brace or lacks a closing brace; and when both are
present but the last closing brace precedes the first opening brace, it does
not report failure: it returns the substring between the two indices (the
JavaScript `substring` swaps its arguments), a string that contains no opening
brace and therefore is not the text of a JSON object. -/
theorem claim10_naive_extract (text : String)
    (hfence : fencedMatch text.data = none) :
    (extractJSONNaive text = none ↔
      (braceOpen ∉ text.data ∨ braceClose ∉ text.data)) ∧
    (∀ a b, jsIndexOf text.data braceOpen = some a →
      jsLastIndexOf text.data braceClose = some b → b < a →
      extractJSONNaive text = some (String.mk (jsSubstring text.data a (b + 1))) ∧
      braceOpen ∉ jsSubstring text.data a (b + 1) ∧
      isJSONObjectText (String.mk (jsSubstring text.data a (b + 1))) = false) := by
  constructor
  · rw [extractJSONNaive, hfence]
    cases h1 : jsIndexOf text.data braceOpen with
    | none =>
      have hno := (jsIndexOfAux_eq_none braceOpen text.data 0).mp h1
      cases h2 : jsLastIndexOf text.data braceClose <;> simp [hno]
    | some a =>
      obtain ⟨u, v, hs, _, _⟩ := jsIndexOfAux_eq_some braceOpen text.data 0 a h1
      have hin : braceOpen ∈ text.data := by rw [hs]; simp
      cases h2 : jsLastIndexOf text.data braceClose with
      | none =>
        have hno := (jsLastIndexOf_eq_none text.data braceClose).mp h2
        simp [hin, hno]
      | some b =>
        obtain ⟨u2, v2, hs2, _, _⟩ := jsLastIndexOf_eq_some text.data braceClose b h2
        have hin2 : braceClose ∈ text.data := by rw [hs2]; simp
        simp [hin, hin2]
  · intro a b h1 h2 hba
    obtain ⟨u, v, hs, ha, hnu⟩ := jsIndexOfAux_eq_some braceOpen text.data 0 a h1
    obtain ⟨u2, v2, hs2, hb, _⟩ := jsLastIndexOf_eq_some text.data braceClose b h2
    simp only [Nat.zero_add] at ha
    have hlen : text.data.length = u.length + 1 + v.length := by
      rw [hs]; simp [List.length_append]; omega
    have halt : a < text.data.length := by omega
    have hble : b + 1 ≤ text.data.length := by
      have : text.data.length = u2.length + 1 + v2.length := by
        rw [hs2]; simp [List.length_append]; omega
      omega
    have hsub : jsSubstring text.data a (b + 1) = u.drop (b + 1) := by
      rw [jsSubstring]
      have e1 : min a text.data.length = a := by omega
      have e2 : min (b + 1) text.data.length = b + 1 := by omega
      simp only [e1, e2]
      have e3 : min a (b + 1) = b + 1 := by omega
      have e4 : max a (b + 1) = a := by omega
      rw [e3, e4]
      have e5 := List.drop_take a (b + 1) text.data
      rw [← e5]
      have e6 : text.data.take a = u := by
        rw [hs, ha, List.take_left]
      rw [e6]
    have hnor : braceOpen ∉ jsSubstring text.data a (b + 1) := by
      rw [hsub]
      intro hmem
      exact hnu (List.drop_subset (b + 1) u hmem)
    refine ⟨?_, hnor, ?_⟩
    · rw [extractJSONNaive, hfence]
      rw [show jsIndexOf text.data braceOpen = some a from h1]
      rw [show jsLastIndexOf text.data braceClose = some b from h2]
    · rw [isJSONObjectText]
      cases hsw : skipJsonWs (String.mk (jsSubstring text.data a (b + 1))).data with
      | nil => rfl
      | cons c t =>
        have hcmem : c ∈ jsSubstring text.data a (b + 1) := by
          have h0 : c ∈ skipJsonWs (String.mk (jsSubstring text.data a (b + 1))).data := by
            rw [hsw]; exact List.mem_cons_self c t
          exact (List.dropWhile_sublist _).subset h0
        have hcne : (c == braceOpen) = false := by
          simp only [beq_eq_false_iff_ne, ne_eq]
          intro hc
          rw [hc] at hcmem
          exact hnor hcmem
        simp [hcne]

/-- Witness for claim C10 at the text consisting of a closing brace, a
spaced letter, and an opening brace: both braces are present, the last
closing brace precedes the first opening brace, extraction returns the
swapped substring, and that substring is not a JSON object. -/
theorem claim10_witness :
    extractJSONNaive "\x7d x \x7b"
      = some (String.mk (jsSubstring ("\x7d x \x7b" : String).data 4 1)) ∧
    braceOpen ∉ jsSubstring ("\x7d x \x7b" : String).data 4 1 ∧
    isJSONObjectText (String.mk (jsSubstring ("\x7d x \x7b" : String).data 4 1)) = false := by
  have h := (claim10_naive_extract "\x7d x \x7b" (by decide)).2 4 0
    (by decide) (by decide) (by decide)
  simpa using h

/-- Walking brace-free leading text leaves the scan state unchanged apart
from the position counter. -/
theorem braceScan_skipChunk :
    ∀ (pre t : List Char) (i : Nat),
    (∀ c ∈ pre, c ≠ braceOpen ∧ c ≠ braceClose) →
    braceScan (pre ++ t) 0 none i = braceScan t 0 none (i + pre.length) := by
  intro pre
  induction pre with
  | nil => intro t i _; simp
  | cons c cs ih =>
    intro t i hpre
    obtain ⟨h1, h2⟩ := hpre c (List.mem_cons_self c cs)
    have hb1 : (c == braceOpen) = false := by simp [h1]
    have hb2 : (c == braceClose) = false := by simp [h2]
    rw [List.cons_append, braceScan, hb1, hb2]
    simp only [Bool.false_eq_true, if_false]
    rw [ih t (i + 1) (fun d hd => hpre d (List.mem_cons_of_mem c hd))]
    congr 1
    simp [List.length_cons]
    omega

/-- Scanning the body of a brace group whose depth stays positive until its
final closing brace returns the recorded start together with the position
just past that closing brace, regardless of what follows. -/
theorem braceScan_closed :
    ∀ (body : List Char) (d : Int) (s j : Nat) (post : List Char),
    1 ≤ d → closedAt body d = true →
    braceScan (body ++ post) d (some s) j = some (s, j + body.length) := by
  intro body
  induction body with
  | nil => intro d s j post _ hc; simp [closedAt] at hc
  | cons c rest ih =>
    intro d s j post hd hc
    simp only [closedAt] at hc
    by_cases ho : c = braceOpen
    · subst ho
      simp only [beq_self_eq_true, if_true] at hc ⊢
      have hne : ((d + 1 : Int) == 0) = false := by
        simp only [beq_eq_false_iff_ne, ne_eq]
        omega
      rw [hne] at hc
      simp only [Bool.false_eq_true, if_false] at hc
      rw [List.cons_append, braceScan]
      simp only [beq_self_eq_true, if_true]
      have hdz : ((d : Int) == 0) = false := by
        simp only [beq_eq_false_iff_ne, ne_eq]
        omega
      rw [hdz]
      simp only [Bool.false_eq_true, if_false]
      rw [ih (d + 1) s (j + 1) post (by omega) hc]
      simp [List.length_cons]
      omega
    · by_cases hcl : c = braceClose
      · subst hcl
        have hbo : (braceClose == braceOpen) = false := by decide
        simp only [hbo, Bool.false_eq_true, if_false, beq_self_eq_true, if_true] at hc ⊢
        rw [List.cons_append, braceScan]
        simp only [hbo, Bool.false_eq_true, if_false, beq_self_eq_true, if_true]
        by_cases hone : d = 1
        · subst hone
          simp only [show ((1 - 1 : Int) == 0) = true from rfl, if_true] at hc ⊢
          have : rest = [] := by simpa [List.isEmpty_iff] using hc
          subst this
          simp
        · have hne : ((d - 1 : Int) == 0) = false := by
            simp only [beq_eq_false_iff_ne, ne_eq]
            omega
          rw [hne] at hc ⊢
          simp only [Bool.false_eq_true, if_false] at hc ⊢
          rw [ih (d - 1) s (j + 1) post (by omega) hc]
          simp [List.length_cons]
          omega
      · have hb1 : (c == braceOpen) = false := by simp [ho]
        have hb2 : (c == braceClose) = false := by simp [hcl]
        simp only [hb1, hb2, Bool.false_eq_true, if_false] at hc ⊢
        have hne : ((d : Int) == 0) = false := by
          simp only [beq_eq_false_iff_ne, ne_eq]
          omega
        rw [hne] at hc
        simp only [Bool.false_eq_true, if_false] at hc
        rw [List.cons_append, braceScan, hb1, hb2]
        simp only [Bool.false_eq_true, if_false]
        rw [ih d s (j + 1) post hd hc]
        simp [List.length_cons]
        omega

/-- A brace group whose depth returns to zero contains a closing brace. -/
theorem closedAt_mem_braceClose :
    ∀ (body : List Char) (d : Int), 1 ≤ d → closedAt body d = true →
    braceClose ∈ body := by
  intro body
  induction body with
  | nil => intro d _ hc; simp [closedAt] at hc
  | cons c rest ih =>
    intro d hd hc
    by_cases hcl : c = braceClose
    · subst hcl; exact List.mem_cons_self _ _
    · simp only [closedAt] at hc
      have hb2 : (c == braceClose) = false := by simp [hcl]
      by_cases ho : c = braceOpen
      · subst ho
        simp only [beq_self_eq_true, if_true] at hc
        have hne : ((d + 1 : Int) == 0) = false := by
          simp only [beq_eq_false_iff_ne, ne_eq]
          omega
        rw [hne] at hc
        simp only [Bool.false_eq_true, if_false] at hc
        exact List.mem_cons_of_mem _ (ih (d + 1) (by omega) hc)
      · have hb1 : (c == braceOpen) = false := by simp [ho]
        simp only [hb1, hb2, Bool.false_eq_true, if_false] at hc
        have hne : ((d : Int) == 0) = false := by
          simp only [beq_eq_false_iff_ne, ne_eq]
          omega
        rw [hne] at hc
        simp only [Bool.false_eq_true, if_false] at hc
        exact List.mem_cons_of_mem _ (ih d hd hc)

/-- Claim C2 counterexample: the naive extractJSON used by the feedback and
research-engine generation clients does not perform balanced-brace
extraction.  On the unfenced text made of a short prose prefix, the embedded
balanced JSON object, and a suffix containing a stray closing brace, it
returns the first-to-last brace slice, a string that is not valid JSON at
all, hence does not parse to the embedded object. -/
theorem claim2_counterexample :
    ("x \x7b\"a\":1\x7d \x7d" : String)
      = "x " ++ "\x7b\"a\":1\x7d" ++ " \x7d" ∧
    (∃ body, ("\x7b\"a\":1\x7d" : String).data = braceOpen :: body ∧
      closedAt body 1 = true) ∧
    fencedMatch ("x \x7b\"a\":1\x7d \x7d" : String).data = none ∧
    extractJSONNaive "x \x7b\"a\":1\x7d \x7d" = some "\x7b\"a\":1\x7d \x7d" ∧
    ("\x7b\"a\":1\x7d \x7d" : String) ≠ "\x7b\"a\":1\x7d" ∧
    jsonParses "\x7b\"a\":1\x7d \x7d" = false ∧
    jsonParses "\x7b\"a\":1\x7d" = true := by
  refine ⟨by decide, ⟨"\"a\":1\x7d".data, by decide, by decide⟩,
    by decide, by decide, by decide, by decide, by decide⟩

/-- Claim C2 (amended): of the three extractJSON implementations, only the
gemini-provider one performs balanced-brace extraction, and its balanced
behaviour additionally requires the text before the embedded object to be
brace-free (the scan counts every brace of the whole text, so stray braces in
the prefix corrupt the slice).  Precisely: for unfenced text of the form
`pre ++ J ++ post` where `pre` contains no brace characters and `J` is a
single balanced-brace object (its nesting stays positive until its final
closing brace), the gemini-provider extractJSON returns exactly `J`, even
when `post` contains stray opening or closing braces; the feedback and
research-engine implementations instead return the first-opening-brace to
last-closing-brace slice. -/
theorem claim2_amended (pre J post : String)
    (hfence : fencedMatch (pre ++ J ++ post).data = none)
    (hpre : ∀ c ∈ pre.data, c ≠ braceOpen ∧ c ≠ braceClose)
    (hJ : ∃ body, J.data = braceOpen :: body ∧ closedAt body 1 = true) :
    GeminiProvider.extractJSON (pre ++ J ++ post) = some J := by
  obtain ⟨body, hbody, hclosed⟩ := hJ
  have hdata : (pre ++ J ++ post).data = pre.data ++ (J.data ++ post.data) := by
    rw [String.data_append, String.data_append, List.append_assoc]
  have hopen : braceOpen ∈ (pre ++ J ++ post).data := by
    rw [hdata, hbody]; simp
  have hclose : braceClose ∈ (pre ++ J ++ post).data := by
    have hm := closedAt_mem_braceClose body 1 (by norm_num) hclosed
    rw [hdata, hbody]
    simp [hm]
  have hlen : (pre ++ J ++ post).data.length
      = pre.data.length + (J.data.length + post.data.length) := by
    rw [hdata]; simp [List.length_append]
  have hscan : braceScan (pre ++ J ++ post).data 0 none 0
      = some (pre.data.length, pre.data.length + J.data.length) := by
    rw [hdata, braceScan_skipChunk pre.data _ 0 hpre, hbody, List.cons_append,
      braceScan]
    simp only [beq_self_eq_true, if_true, Nat.zero_add]
    rw [braceScan_closed body (0 + 1) pre.data.length (pre.data.length + 1)
      post.data (by norm_num) hclosed]
    simp only [List.length_cons, Option.some.injEq, Prod.mk.injEq, true_and]
    omega
  cases h1 : jsIndexOf (pre ++ J ++ post).data braceOpen with
  | none => exact absurd hopen ((jsIndexOfAux_eq_none _ _ _).mp h1)
  | some a =>
  cases h2 : jsLastIndexOf (pre ++ J ++ post).data braceClose with
  | none => exact absurd hclose ((jsLastIndexOf_eq_none _ _).mp h2)
  | some b =>
  have hsub : jsSubstring (pre ++ J ++ post).data pre.data.length
      (pre.data.length + J.data.length) = J.data := by
    rw [jsSubstring]
    have e1 : min pre.data.length (pre ++ J ++ post).data.length
        = pre.data.length := by omega
    have e2 : min (pre.data.length + J.data.length) (pre ++ J ++ post).data.length
        = pre.data.length + J.data.length := by omega
    simp only [e1, e2]
    have e3 : min pre.data.length (pre.data.length + J.data.length)
        = pre.data.length := by omega
    have e4 : max pre.data.length (pre.data.length + J.data.length)
        = pre.data.length + J.data.length := by omega
    rw [e3, e4, hdata, List.drop_left]
    rw [show pre.data.length + J.data.length - pre.data.length = J.data.length
      by omega]
    exact List.take_left J.data post.data
  simp only [GeminiProvider.extractJSON, hfence, h1, h2, hscan, hsub]

/-- Witness for the amended claim C2: a concrete unfenced text with a
brace-free prose prefix, a nested balanced JSON object, and a suffix
containing both a stray closing and a stray opening brace; the
gemini-provider extractJSON returns exactly the embedded object. -/
theorem claim2_witness :
    GeminiProvider.extractJSON
        ("Note " ++ "\x7b\"a\": \x7b\"b\": 1\x7d\x7d" ++ " tail \x7d and \x7b")
      = some "\x7b\"a\": \x7b\"b\": 1\x7d\x7d" := by
  exact claim2_amended "Note " "\x7b\"a\": \x7b\"b\": 1\x7d\x7d" " tail \x7d and \x7b"
    (by decide) (by decide)
    ⟨"\"a\": \x7b\"b\": 1\x7d\x7d".data, by decide, by decide⟩

/-- Claim C5: searchWeb never raises (it is a total function into plain
lists): when the wrapped search call fails unrecoverably (retries exhausted)
the failure is caught inside searchWeb and the empty list is returned; on
success the request carried the result-count limit `min (depth * 2) 5` (and
the 30-second timeout) and the returned list is the response with
absent-content items dropped. -/
theorem claim5_searchweb (fs : String → SearchParams → Nat → Except Err (List Item))
    (q : String) (d : Nat) :
    (∀ e, (WebSearch.retry (fun attempt => fs q (WebSearch.searchParamsFor d) attempt)
        0 3 2000).1 = Except.error e → WebSearch.searchWeb fs q d = []) ∧
    (∀ items, (WebSearch.retry (fun attempt => fs q (WebSearch.searchParamsFor d) attempt)
        0 3 2000).1 = Except.ok items →
      WebSearch.searchWeb fs q d = items.filterMap WebSearch.itemContent) ∧
    (WebSearch.searchParamsFor d).limit = min (d * 2) 5 ∧
    (WebSearch.searchParamsFor d).timeout = 30000 := by
  refine ⟨?_, ?_, rfl, rfl⟩
  · intro e he
    rw [WebSearch.searchWeb, he]
  · intro items hi
    rw [WebSearch.searchWeb, hi]

/-- Witness for claim C5: with an always-failing search oracle the client
returns the empty list; with a succeeding oracle returning one item with
content and one without, the client returns exactly the present content. -/
theorem claim5_witness :
    WebSearch.searchWeb (fun _ _ _ => Except.error ⟨"network down", none⟩) "q" 2 = [] ∧
    WebSearch.searchWeb (fun _ _ _ => Except.ok [⟨some "hello"⟩, ⟨none⟩]) "q" 2
      = ["hello"] := by
  constructor
  · exact (claim5_searchweb (fun _ _ _ => Except.error ⟨"network down", none⟩) "q" 2).1
      ⟨"network down", none⟩ (by decide)
  · have h := (claim5_searchweb (fun _ _ _ => Except.ok [⟨some "hello"⟩, ⟨none⟩]) "q" 2).2.1
      [⟨some "hello"⟩, ⟨none⟩] (by decide)
    rw [h]
    decide

/-! Feedback generation client (src/src/core/feedback.ts lines 54-156). -/

/-- Occurrence of a substring survives prepending arbitrary text. -/
theorem hasSub_append_right (needle l2 : List Char) (h : hasSub needle l2 = true) :
    ∀ l1, hasSub needle (l1 ++ l2) = true := by
  intro l1
  induction l1 with
  | nil => simpa using h
  | cons c cs ih =>
    rw [List.cons_append, hasSub, ih]
    simp

/-- Claim C6 counterexample: when the model output never yields usable JSON
and numQuestions is 4, generateFeedback returns the three canned questions,
not four: `.slice(0, numQuestions)` cannot extend the three-element fallback
list. -/
theorem claim6_counterexample :
    (Feedback.generateFeedback (fun _ _ => Except.ok "no json here")
      (fun _ => Except.error ⟨"unused", none⟩) "topic" 4).length = 3 ∧
    (3 : Nat) ≠ 4 := by
  constructor
  · decide
  · decide

/-- Claim C6 (amended): when model output never yields usable JSON
(extraction, parsing, or validation fails on both the first and the
amended-prompt attempt), generateFeedback returns the canned fallback:
exactly `min numQuestions 3` non-empty strings each containing a question
mark — in particular exactly numQuestions whenever numQuestions ≤ 3,
including the default numQuestions = 3. -/
theorem claim6_amended (gen : Nat → Nat → Except Err String)
    (parse : String → Except Err (List String)) (q : String) (nq : Nat)
    (h1 : ∀ t, (Feedback.retry (gen 0) 0 3 1000).1 = Except.ok t →
      ∀ v, Feedback.validQuestions parse t nq ≠ Except.ok v)
    (h2 : ∀ t, (Feedback.retry (gen 1) 0 3 1000).1 = Except.ok t →
      ∀ v, Feedback.validQuestions parse t nq ≠ Except.ok v) :
    Feedback.generateFeedback gen parse q nq = Feedback.fallbackQuestions q nq ∧
    (Feedback.generateFeedback gen parse q nq).length = min nq 3 ∧
    ∀ s ∈ Feedback.generateFeedback gen parse q nq,
      s ≠ "" ∧ strIncludes s "?" = true := by
  have hout : ∃ e, Feedback.feedbackOutcome gen parse nq = Except.error e := by
    rw [Feedback.feedbackOutcome]
    split
    next e heq => exact ⟨e, rfl⟩
    next t heq =>
      split
      next v1 heq2 => exact absurd heq2 (h1 t heq v1)
      next e1 heq2 =>
        split
        next e2 heq3 => exact ⟨e2, rfl⟩
        next t2 heq3 =>
          cases hv2 : Feedback.validQuestions parse t2 nq with
          | ok v2 => exact absurd hv2 (h2 t2 heq3 v2)
          | error e3 => exact ⟨e3, rfl⟩
  obtain ⟨eo, hoe⟩ := hout
  have hfb : Feedback.generateFeedback gen parse q nq
      = Feedback.fallbackQuestions q nq := by
    rw [Feedback.generateFeedback, hoe]
  refine ⟨hfb, ?_, ?_⟩
  · rw [hfb, Feedback.fallbackQuestions, List.length_take]
    rfl
  · intro s hs
    rw [hfb, Feedback.fallbackQuestions] at hs
    have hs2 := List.mem_of_mem_take hs
    simp only [List.mem_cons, List.not_mem_nil, or_false] at hs2
    rcases hs2 with h | h | h
    · subst h
      constructor
      · intro hempty
        have hd := congrArg String.data hempty
        rw [String.data_append, String.data_append] at hd
        simp only [List.append_eq_nil] at hd
        have : ("What specific aspects of \"" : String).data = [] := hd.1.1
        revert this
        decide
      · show strIncludes _ "?" = true
        rw [strIncludes, String.data_append, String.data_append, List.append_assoc]
        exact hasSub_append_right "?".data
          ("\" are you most interested in?" : String).data (by decide) _
    · subst h
      constructor
      · decide
      · decide
    · subst h
      constructor
      · decide
      · decide

/-- Witness for the amended claim C6: a model that always answers plain
non-JSON text and a parse oracle that always fails drive generateFeedback to
the canned fallback of exactly three question-marked strings. -/
theorem claim6_witness :
    Feedback.generateFeedback (fun _ _ => Except.ok "plain text")
        (fun _ => Except.error ⟨"x", none⟩) "solar power" 3
      = Feedback.fallbackQuestions "solar power" 3 ∧
    (Feedback.generateFeedback (fun _ _ => Except.ok "plain text")
        (fun _ => Except.error ⟨"x", none⟩) "solar power" 3).length = min 3 3 ∧
    ∀ s ∈ Feedback.generateFeedback (fun _ _ => Except.ok "plain text")
        (fun _ => Except.error ⟨"x", none⟩) "solar power" 3,
      s ≠ "" ∧ strIncludes s "?" = true := by
  have hval : ∀ (t : String) (v : List String),
      Feedback.validQuestions (fun _ => Except.error ⟨"x", none⟩) t 3
        ≠ Except.ok v := by
    intro t v
    rw [Feedback.validQuestions]
    cases extractJSONNaive t with
    | none => simp
    | some js => simp
  exact claim6_amended (fun _ _ => Except.ok "plain text")
    (fun _ => Except.error ⟨"x", none⟩) "solar power" 3
    (fun t _ v => hval t v) (fun t _ v => hval t v)

/-- Accumulated chunks pass through the loop untouched. -/
theorem ResearchEngine.goChunks_acc :
    ∀ (cs : List (List Char)) (chunks : List (List Char)) (cur : List Char),
    ResearchEngine.goChunks cs chunks cur
      = chunks ++ ResearchEngine.goChunks cs [] cur := by
  intro cs
  induction cs with
  | nil =>
    intro chunks cur
    by_cases h : cur = [] <;> simp [ResearchEngine.goChunks, h]
  | cons c rest ih =>
    intro chunks cur
    rw [ResearchEngine.goChunks, ResearchEngine.goChunks]
    by_cases h : cur.length + c.length > 15000
    · rw [if_pos h, if_pos h, ih (chunks ++ [cur]) c, ih ([] ++ [cur]) c]
      simp
    · rw [if_neg h, if_neg h, ih chunks _]

/-- Accumulated item-level chunks pass through the loop untouched. -/
theorem ResearchEngine.goItems_acc :
    ∀ (cs : List (List Char)) (chunksI : List (List (List Char)))
      (curI : List (List Char)) (flag : Bool),
    ResearchEngine.goItems cs chunksI curI flag
      = chunksI ++ ResearchEngine.goItems cs [] curI flag := by
  intro cs
  induction cs with
  | nil =>
    intro chunksI curI flag
    by_cases h : ResearchEngine.renderChunk flag curI = [] <;>
      simp [ResearchEngine.goItems, h]
  | cons c rest ih =>
    intro chunksI curI flag
    rw [ResearchEngine.goItems, ResearchEngine.goItems]
    by_cases h : (ResearchEngine.renderChunk flag curI).length + c.length > 15000
    · rw [if_pos h, if_pos h, ih (chunksI ++ [curI]) [c] false, ih ([] ++ [curI]) [c] false]
      simp
    · rw [if_neg h, if_neg h, ih chunksI _ flag]

/-- A one-item chunk in overflow style renders as the item itself. -/
theorem ResearchEngine.renderChunk_single (c : List Char) :
    ResearchEngine.renderChunk false [c] = c := by
  simp [ResearchEngine.renderChunk]

/-- Appending an item to a chunk appends the separator and the item to its
rendering (for overflow style the chunk must be non-empty). -/
theorem ResearchEngine.renderChunk_push (flag : Bool) (items : List (List Char))
    (c : List Char) (h : flag = false → items ≠ []) :
    ResearchEngine.renderChunk flag (items ++ [c])
      = ResearchEngine.renderChunk flag items ++ ResearchEngine.sepChars ++ c := by
  cases flag with
  | true => simp [ResearchEngine.renderChunk, List.append_assoc]
  | false =>
    cases items with
    | nil => exact absurd rfl (h rfl)
    | cons hd t => simp [ResearchEngine.renderChunk, List.append_assoc]

/-- Rendering in overflow style is just the pointwise rendering. -/
theorem ResearchEngine.renderChunksFrom_false (l : List (List (List Char))) :
    ResearchEngine.renderChunksFrom false l = l.map (ResearchEngine.renderChunk false) := by
  cases l with
  | nil => rfl
  | cons h t => rfl

/-- The character-level chunking loop is the rendering of the item-level
loop. -/
theorem ResearchEngine.goChunks_eq_render :
    ∀ (cs : List (List Char)) (curI : List (List Char)) (flag : Bool),
    (flag = false → curI ≠ []) →
    ResearchEngine.goChunks cs [] (ResearchEngine.renderChunk flag curI)
      = ResearchEngine.renderChunksFrom flag (ResearchEngine.goItems cs [] curI flag) := by
  intro cs
  induction cs with
  | nil =>
    intro curI flag _
    rw [ResearchEngine.goChunks, ResearchEngine.goItems]
    by_cases h : ResearchEngine.renderChunk flag curI = []
    · rw [if_pos h, if_pos h]
      rfl
    · rw [if_neg h, if_neg h]
      rfl
  | cons c rest ih =>
    intro curI flag hflag
    rw [ResearchEngine.goChunks, ResearchEngine.goItems]
    by_cases h : (ResearchEngine.renderChunk flag curI).length + c.length > 15000
    · rw [if_pos h, if_pos h]
      rw [ResearchEngine.goChunks_acc, ResearchEngine.goItems_acc]
      simp only [List.nil_append, List.singleton_append]
      have hr : ∀ (fl : Bool) (hd : List (List Char)) (t : List (List (List Char))),
          ResearchEngine.renderChunksFrom fl (hd :: t)
            = ResearchEngine.renderChunk fl hd :: t.map (ResearchEngine.renderChunk false) :=
        fun _ _ _ => rfl
      rw [hr]
      have htail : ResearchEngine.goChunks rest [] c
          = ResearchEngine.renderChunksFrom false
            (ResearchEngine.goItems rest [] [c] false) := by
        conv_lhs => rw [← ResearchEngine.renderChunk_single c]
        exact ih [c] false (fun _ => by simp)
      rw [htail, ResearchEngine.renderChunksFrom_false]
    · rw [if_neg h, if_neg h]
      rw [← ResearchEngine.renderChunk_push flag curI c hflag]
      exact ih (curI ++ [c]) flag (fun _ => by simp)

/-- With non-empty content items, the item-level chunking is aggregating:
its chunks joined in order recover the input items in order. -/
theorem ResearchEngine.goItems_join :
    ∀ (cs : List (List Char)) (curI : List (List Char)) (flag : Bool),
    (∀ x ∈ cs, x ≠ []) →
    (flag = false → ∃ hd t, curI = hd :: t ∧ hd ≠ []) →
    (ResearchEngine.goItems cs [] curI flag).flatten = curI ++ cs := by
  intro cs
  induction cs with
  | nil =>
    intro curI flag _ hflag
    rw [ResearchEngine.goItems]
    by_cases h : ResearchEngine.renderChunk flag curI = []
    · rw [if_pos h]
      have hcur : curI = [] := by
        cases flag with
        | true =>
          cases curI with
          | nil => rfl
          | cons hd t =>
            exfalso
            rw [ResearchEngine.renderChunk] at h
            simp [ResearchEngine.sepChars] at h
        | false =>
          obtain ⟨hd, t, hcur, hhd⟩ := hflag rfl
          exfalso
          rw [hcur, ResearchEngine.renderChunk] at h
          simp [ResearchEngine.sepChars] at h
          exact hhd h.1
      rw [hcur]
      rfl
    · rw [if_neg h]
      simp
  | cons c rest ih =>
    intro curI flag hne hflag
    rw [ResearchEngine.goItems]
    by_cases h : (ResearchEngine.renderChunk flag curI).length + c.length > 15000
    · rw [if_pos h, ResearchEngine.goItems_acc]
      simp only [List.nil_append]
      rw [List.flatten_append]
      rw [ih [c] false (fun x hx => hne x (List.mem_cons_of_mem c hx))
        (fun _ => ⟨c, [], rfl, hne c (List.mem_cons_self c rest)⟩)]
      simp
    · rw [if_neg h]
      rw [ih (curI ++ [c]) flag (fun x hx => hne x (List.mem_cons_of_mem c hx)) ?hf]
      · simp
      case hf =>
        intro hfalse
        obtain ⟨hd, t, hcur, hhd⟩ := hflag hfalse
        exact ⟨hd, t ++ [c], by rw [hcur, List.cons_append], hhd⟩

/-- Every chunk produced by the loop is bounded by 15002 characters or is a
single input item (or came in through the accumulator). -/
theorem ResearchEngine.goChunks_bound :
    ∀ (cs : List (List Char)) (chunks : List (List Char)) (cur : List Char),
    ∀ d ∈ ResearchEngine.goChunks cs chunks cur,
    d.length ≤ 15002 ∨ d ∈ cs ∨ d ∈ chunks ∨ d = cur := by
  intro cs
  induction cs with
  | nil =>
    intro chunks cur d hd
    rw [ResearchEngine.goChunks] at hd
    by_cases h : cur = []
    · rw [if_pos h] at hd
      exact Or.inr (Or.inr (Or.inl hd))
    · rw [if_neg h] at hd
      rcases List.mem_append.mp hd with hmem | hmem
      · exact Or.inr (Or.inr (Or.inl hmem))
      · exact Or.inr (Or.inr (Or.inr (List.mem_singleton.mp hmem)))
  | cons c rest ih =>
    intro chunks cur d hd
    rw [ResearchEngine.goChunks] at hd
    by_cases h : cur.length + c.length > 15000
    · rw [if_pos h] at hd
      rcases ih (chunks ++ [cur]) c d hd with hb | hm | hm | hm
      · exact Or.inl hb
      · exact Or.inr (Or.inl (List.mem_cons_of_mem c hm))
      · rcases List.mem_append.mp hm with hmm | hmm
        · exact Or.inr (Or.inr (Or.inl hmm))
        · exact Or.inr (Or.inr (Or.inr (List.mem_singleton.mp hmm)))
      · exact Or.inr (Or.inl (hm ▸ List.mem_cons_self c rest))
    · rw [if_neg h] at hd
      rcases ih chunks (cur ++ ResearchEngine.sepChars ++ c) d hd with hb | hm | hm | hm
      · exact Or.inl hb
      · exact Or.inr (Or.inl (List.mem_cons_of_mem c hm))
      · exact Or.inr (Or.inr (Or.inl hm))
      · left
        rw [hm]
        simp only [List.length_append, ResearchEngine.sepChars]
        simp only [List.length_cons, List.length_nil]
        omega

/-- Claim C8 counterexample: the chunking step does not keep chunks within
15,000 characters.  With items of 7000 and 7998 characters the check
`currentChunk.length + content.length > 15000` passes (7002 + 7998 = 15000),
but the appended separator makes the single produced chunk 15,002 characters
long. -/
theorem claim8_counterexample :
    (ResearchEngine.splitChunks [bigItemA, bigItemB]).map List.length = [15002] ∧
    ¬ (∀ c ∈ ResearchEngine.splitChunks [bigItemA, bigItemB], c.length ≤ 15000) := by
  have hA : bigItemA.length = 7000 := by
    unfold bigItemA
    rw [List.length_replicate]
  have hB : bigItemB.length = 7998 := by
    unfold bigItemB
    rw [List.length_replicate]
  have hmap : (ResearchEngine.splitChunks [bigItemA, bigItemB]).map List.length
      = [15002] := by
    rw [ResearchEngine.splitChunks, ResearchEngine.goChunks]
    rw [if_neg (by simp only [List.length_nil, hA]; omega)]
    rw [ResearchEngine.goChunks]
    rw [if_neg (by
      simp only [List.length_append, List.length_nil, hA, hB,
        ResearchEngine.sepChars, List.length_cons]
      omega)]
    rw [ResearchEngine.goChunks]
    rw [if_neg (by simp [ResearchEngine.sepChars])]
    simp only [List.nil_append, List.map_cons, List.map_nil, List.length_append,
      ResearchEngine.sepChars, List.length_cons, List.length_nil, hA, hB]
  refine ⟨hmap, ?_⟩
  intro hall
  cases hres : ResearchEngine.splitChunks [bigItemA, bigItemB] with
  | nil => rw [hres] at hmap; simp at hmap
  | cons c t =>
    rw [hres] at hmap
    simp only [List.map_cons, List.cons.injEq] at hmap
    have hc := hall c (by rw [hres]; exact List.mem_cons_self c t)
    omega

/-- Claim C8 (amended): the chunking step groups the content items greedily
in input order — a chunk is closed and a new one started exactly when
`currentChunk.length + item.length` exceeds 15,000 — and, provided every
content item is non-empty, concatenating the chunks' items in order recovers
the input items in order.  However the two-character separator written before
every appended item is not counted by the bound check, so a chunk's length is
only bounded by 15,002 rather than 15,000, except that a chunk may also be a
single input item of arbitrary length (an item longer than 15,000 becomes a
chunk by itself).  Each produced chunk renders its items with a leading
separator before every appended item (every item of the first chunk; all but
the first item of the later, overflow-started chunks). -/
theorem claim8_amended (contents : List (List Char))
    (hne : ∀ x ∈ contents, x ≠ []) :
    ResearchEngine.splitChunks contents
      = ResearchEngine.renderChunks (ResearchEngine.splitChunksItems contents) ∧
    (ResearchEngine.splitChunksItems contents).flatten = contents ∧
    (∀ c ∈ ResearchEngine.splitChunks contents,
      c.length ≤ 15002 ∨ c ∈ contents) := by
  refine ⟨?_, ?_, ?_⟩
  · rw [ResearchEngine.splitChunks, ResearchEngine.splitChunksItems,
      ResearchEngine.renderChunks]
    have h0 : ResearchEngine.renderChunk true ([] : List (List Char)) = [] := by
      simp [ResearchEngine.renderChunk]
    rw [show ResearchEngine.goChunks contents [] []
        = ResearchEngine.goChunks contents [] (ResearchEngine.renderChunk true []) by
      rw [h0]]
    exact ResearchEngine.goChunks_eq_render contents [] true (by simp)
  · rw [ResearchEngine.splitChunksItems]
    rw [ResearchEngine.goItems_join contents [] true hne (by simp)]
    rfl
  · intro c hc
    rcases ResearchEngine.goChunks_bound contents [] [] c hc with hb | hm | hm | hm
    · exact Or.inl hb
    · exact Or.inr hm
    · exact absurd hm (List.not_mem_nil c)
    · exact Or.inl (by rw [hm]; simp)

/-- Witness for the amended claim C8 on two small non-empty items: the single
produced chunk renders both items with leading separators, the item-level
chunking recovers the items, and the chunk length is within 15,002. -/
theorem claim8_witness :
    ResearchEngine.splitChunks ["ab".data, "cd".data]
      = ResearchEngine.renderChunks
        (ResearchEngine.splitChunksItems ["ab".data, "cd".data]) ∧
    (ResearchEngine.splitChunksItems ["ab".data, "cd".data]).flatten
      = ["ab".data, "cd".data] ∧
    (∀ c ∈ ResearchEngine.splitChunks ["ab".data, "cd".data],
      c.length ≤ 15002 ∨ c ∈ ["ab".data, "cd".data]) := by
  exact claim8_amended ["ab".data, "cd".data] (by decide)

/-- findIdx over an append: the left part wins when it contains a match,
otherwise the search continues shifted into the right part. -/
theorem findIdx_append_split {α : Type} (p : α → Bool) :
    ∀ (xs ys : List α),
    (xs ++ ys).findIdx p
      = if xs.any p then xs.findIdx p else xs.length + ys.findIdx p := by
  intro xs
  induction xs with
  | nil => intro ys; simp
  | cons x xs ih =>
    intro ys
    rw [List.cons_append, List.findIdx_cons, List.findIdx_cons]
    cases hx : p x with
    | true => simp [hx]
    | false =>
      simp only [hx, cond_false, List.any_cons, Bool.false_or]
      rw [ih ys]
      by_cases ha : xs.any p = true
      · rw [if_pos ha, if_pos ha]
      · rw [if_neg ha, if_neg ha]
        simp only [List.length_cons]
        omega

/-- A successful `any` bounds the found index. -/
theorem findIdx_lt_length_of_any {α : Type} (p : α → Bool) :
    ∀ (xs : List α), xs.any p = true → xs.findIdx p < xs.length := by
  intro xs
  induction xs with
  | nil => intro h; simp at h
  | cons x xs ih =>
    intro h
    rw [List.findIdx_cons]
    cases hx : p x with
    | true => simp
    | false =>
      simp only [List.any_cons, hx, Bool.false_or] at h
      simp only [cond_false, List.length_cons]
      exact Nat.succ_lt_succ (ih h)

/-- The first-occurrence recursion only looks at the membership of the seen
set. -/
theorem ResearchEngine.firstOcc_congr :
    ∀ (fs : List Finding) (seen1 seen2 : List String),
    (∀ t, t ∈ seen1 ↔ t ∈ seen2) →
    ResearchEngine.firstOccByTitle seen1 fs = ResearchEngine.firstOccByTitle seen2 fs := by
  intro fs
  induction fs with
  | nil => intro seen1 seen2 _; rfl
  | cons f fs ih =>
    intro seen1 seen2 hiff
    rw [ResearchEngine.firstOccByTitle, ResearchEngine.firstOccByTitle]
    by_cases h : f.title ∈ seen1
    · rw [if_pos h, if_pos ((hiff f.title).mp h)]
      exact ih seen1 seen2 hiff
    · rw [if_neg h, if_neg (fun hc => h ((hiff f.title).mpr hc))]
      rw [ih (f.title :: seen1) (f.title :: seen2) (by
        intro t
        simp only [List.mem_cons]
        constructor
        · rintro (ht | ht)
          · exact Or.inl ht
          · exact Or.inr ((hiff t).mp ht)
        · rintro (ht | ht)
          · exact Or.inl ht
          · exact Or.inr ((hiff t).mpr ht))]

/-- The findIndex-based filter equals the first-occurrence recursion, for a
processed prefix of the full list. -/
theorem ResearchEngine.dedupAux_eq_firstOcc :
    ∀ (rest pre l : List Finding), l = pre ++ rest →
    ResearchEngine.dedupAux l rest pre.length
      = ResearchEngine.firstOccByTitle (pre.map (fun f => f.title)) rest := by
  intro rest
  induction rest with
  | nil => intro pre l _; rfl
  | cons f fs ih =>
    intro pre l hl
    rw [ResearchEngine.dedupAux, ResearchEngine.firstOccByTitle]
    have hq : (fun g => g.title == f.title) f = true := by simp
    have hfi : (f :: fs).findIdx (fun g => g.title == f.title) = 0 := by
      rw [List.findIdx_cons]
      simp
    have hsplit := findIdx_append_split (fun g => g.title == f.title) pre (f :: fs)
    rw [← hl] at hsplit
    have hany : pre.any (fun g => g.title == f.title) = true
        ↔ f.title ∈ pre.map (fun g => g.title) := by
      rw [List.any_eq_true]
      constructor
      · rintro ⟨g, hg, hgt⟩
        simp only [beq_iff_eq] at hgt
        exact List.mem_map.mpr ⟨g, hg, hgt⟩
      · intro hmem
        obtain ⟨g, hg, hgt⟩ := List.mem_map.mp hmem
        exact ⟨g, hg, by simp [hgt]⟩
    have hnext : ∀ (kept : Bool), l = (pre ++ [f]) ++ fs := by
      intro _
      rw [hl, List.append_assoc]
      rfl
    by_cases hmem : f.title ∈ pre.map (fun g => g.title)
    · have hany2 : pre.any (fun g => g.title == f.title) = true := hany.mpr hmem
      have hne : l.findIdx (fun g => g.title == f.title) ≠ pre.length := by
        rw [hsplit, if_pos hany2]
        exact Nat.ne_of_lt (findIdx_lt_length_of_any _ pre hany2)
      rw [if_neg hne, if_pos hmem]
      have := ih (pre ++ [f]) l (hnext true)
      rw [List.length_append, List.length_cons, List.length_nil] at this
      rw [this]
      apply ResearchEngine.firstOcc_congr
      intro t
      simp only [List.map_append, List.map_cons, List.map_nil, List.mem_append,
        List.mem_cons, List.not_mem_nil, or_false]
      constructor
      · rintro (ht | ht)
        · exact ht
        · rw [ht]; exact hmem
      · intro ht
        exact Or.inl ht
    · have hany2 : pre.any (fun g => g.title == f.title) = false := by
        cases hval : pre.any (fun g => g.title == f.title) with
        | true => exact absurd (hany.mp hval) hmem
        | false => rfl
      have heq : l.findIdx (fun g => g.title == f.title) = pre.length := by
        rw [hsplit, if_neg (by rw [hany2]; exact Bool.false_ne_true), hfi]
        omega
      rw [if_pos heq, if_neg hmem]
      have := ih (pre ++ [f]) l (hnext false)
      rw [List.length_append, List.length_cons, List.length_nil] at this
      rw [this]
      rw [ResearchEngine.firstOcc_congr fs
        ((pre ++ [f]).map (fun g => g.title)) (f.title :: pre.map (fun g => g.title)) (by
        intro t
        simp only [List.map_append, List.map_cons, List.map_nil, List.mem_append,
          List.mem_cons, List.not_mem_nil, or_false]
        constructor
        · rintro (ht | ht)
          · exact Or.inr ht
          · exact Or.inl ht
        · rintro (ht | ht)
          · exact Or.inr ht
          · exact Or.inl ht)]

/-- The first-occurrence recursion produces pairwise distinct titles, none of
them previously seen. -/
theorem ResearchEngine.firstOcc_nodup :
    ∀ (fs : List Finding) (seen : List String),
    ((ResearchEngine.firstOccByTitle seen fs).map (fun f => f.title)).Nodup ∧
    ∀ t ∈ (ResearchEngine.firstOccByTitle seen fs).map (fun f => f.title), t ∉ seen := by
  intro fs
  induction fs with
  | nil =>
    intro seen
    exact ⟨by simp [ResearchEngine.firstOccByTitle],
      by simp [ResearchEngine.firstOccByTitle]⟩
  | cons f fs ih =>
    intro seen
    rw [ResearchEngine.firstOccByTitle]
    by_cases h : f.title ∈ seen
    · rw [if_pos h]
      exact ih seen
    · rw [if_neg h]
      obtain ⟨hnd, hns⟩ := ih (f.title :: seen)
      constructor
      · rw [List.map_cons, List.nodup_cons]
        refine ⟨fun hc => ?_, hnd⟩
        exact hns f.title hc (List.mem_cons_self _ _)
      · intro t ht
        rw [List.map_cons, List.mem_cons] at ht
        rcases ht with ht | ht
        · rw [ht]; exact h
        · exact fun hc => hns t ht (List.mem_cons_of_mem _ hc)

/-- The set-spread deduplication keeps exactly the elements outside the seen
set, without duplicates. -/
theorem ResearchEngine.jsSetDedupGo_spec :
    ∀ (l seen : List String),
    (ResearchEngine.jsSetDedupGo seen l).Nodup ∧
    ∀ x, x ∈ ResearchEngine.jsSetDedupGo seen l ↔ (x ∈ l ∧ x ∉ seen) := by
  intro l
  induction l with
  | nil => intro seen; exact ⟨List.nodup_nil, by simp [ResearchEngine.jsSetDedupGo]⟩
  | cons x xs ih =>
    intro seen
    rw [ResearchEngine.jsSetDedupGo]
    by_cases h : x ∈ seen
    · rw [if_pos h]
      obtain ⟨hnd, hmem⟩ := ih seen
      refine ⟨hnd, fun y => ?_⟩
      rw [hmem y, List.mem_cons]
      constructor
      · rintro ⟨hy, hns⟩
        exact ⟨Or.inr hy, hns⟩
      · rintro ⟨hy | hy, hns⟩
        · exact absurd (hy ▸ h) hns
        · exact ⟨hy, hns⟩
    · rw [if_neg h]
      obtain ⟨hnd, hmem⟩ := ih (x :: seen)
      constructor
      · rw [List.nodup_cons]
        refine ⟨fun hc => ?_, hnd⟩
        exact ((hmem x).mp hc).2 (List.mem_cons_self _ _)
      · intro y
        rw [List.mem_cons, hmem y, List.mem_cons, List.mem_cons]
        constructor
        · rintro (hy | ⟨hy, hys⟩)
          · exact ⟨Or.inl hy, hy ▸ h⟩
          · exact ⟨Or.inr hy, fun hc => hys (Or.inr hc)⟩
        · rintro ⟨hy | hy, hys⟩
          · exact Or.inl hy
          · by_cases hyx : y = x
            · exact Or.inl hyx
            · exact Or.inr ⟨hy, fun hc => (by
                rcases hc with hc | hc
                · exact hyx hc
                · exact hys hc)⟩

/-- The set-spread deduplication is a sublist of its input. -/
theorem ResearchEngine.jsSetDedupGo_sublist :
    ∀ (l seen : List String),
    List.Sublist (ResearchEngine.jsSetDedupGo seen l) l := by
  intro l
  induction l with
  | nil => intro seen; exact List.Sublist.refl []
  | cons x xs ih =>
    intro seen
    rw [ResearchEngine.jsSetDedupGo]
    by_cases h : x ∈ seen
    · rw [if_pos h]
      exact (ih seen).cons x
    · rw [if_neg h]
      exact (ih (x :: seen)).cons₂ x

/-- The set-spread deduplication equals the first-index characterization:
an element survives exactly when its own index is the first index carrying
its value.  The seen set of the code-side recursion is membership-equivalent
to the processed prefix. -/
theorem ResearchEngine.jsSetDedupGo_eq_firstIdx :
    ∀ (rest pre l seen : List String), l = pre ++ rest →
    (∀ y, y ∈ seen ↔ y ∈ pre) →
    ResearchEngine.jsSetDedupGo seen rest
      = ResearchEngine.firstIdxDedupAux l rest pre.length := by
  intro rest
  induction rest with
  | nil => intro pre l seen _ _; rfl
  | cons x xs ih =>
    intro pre l seen hl hseen
    rw [ResearchEngine.jsSetDedupGo, ResearchEngine.firstIdxDedupAux]
    have hfi : (x :: xs).findIdx (fun y => y == x) = 0 := by
      rw [List.findIdx_cons]
      simp
    have hsplit := findIdx_append_split (fun y => y == x) pre (x :: xs)
    rw [← hl] at hsplit
    have hany : pre.any (fun y => y == x) = true ↔ x ∈ pre := by
      rw [List.any_eq_true]
      constructor
      · rintro ⟨y, hy, hyx⟩
        simp only [beq_iff_eq] at hyx
        exact hyx ▸ hy
      · intro hx
        exact ⟨x, hx, by simp⟩
    have hlnext : l = (pre ++ [x]) ++ xs := by
      rw [hl, List.append_assoc]
      rfl
    by_cases hmem : x ∈ pre
    · have hin : x ∈ seen := (hseen x).mpr hmem
      rw [if_pos hin]
      have hany2 : pre.any (fun y => y == x) = true := hany.mpr hmem
      have hne : l.findIdx (fun y => y == x) ≠ pre.length := by
        rw [hsplit, if_pos hany2]
        exact Nat.ne_of_lt (findIdx_lt_length_of_any _ pre hany2)
      rw [if_neg hne]
      have := ih (pre ++ [x]) l seen hlnext (by
        intro y
        simp only [List.mem_append, List.mem_cons, List.not_mem_nil, or_false,
          hseen y]
        constructor
        · intro hy
          exact Or.inl hy
        · rintro (hy | hy)
          · exact hy
          · exact hy ▸ hmem)
      rw [List.length_append, List.length_cons, List.length_nil] at this
      rw [this]
    · have hnin : x ∉ seen := fun hc => hmem ((hseen x).mp hc)
      rw [if_neg hnin]
      have hany2 : pre.any (fun y => y == x) = false := by
        cases hval : pre.any (fun y => y == x) with
        | true => exact absurd (hany.mp hval) hmem
        | false => rfl
      have heq : l.findIdx (fun y => y == x) = pre.length := by
        rw [hsplit, if_neg (by rw [hany2]; exact Bool.false_ne_true), hfi]
        omega
      rw [if_pos heq]
      have := ih (pre ++ [x]) l (x :: seen) hlnext (by
        intro y
        simp only [List.mem_cons, List.mem_append, List.not_mem_nil, or_false,
          hseen y]
        constructor
        · rintro (hy | hy)
          · exact Or.inr hy
          · exact Or.inl hy
        · rintro (hy | hy)
          · exact Or.inr hy
          · exact Or.inl hy)
      rw [List.length_append, List.length_cons, List.length_nil] at this
      rw [this]

/-- Claim C9: for every list of per-chunk results, the merge step of
processContents returns key findings equal to the first-occurrence-by-title
filtering of the flattened findings (so titles are pairwise distinct, the
first finding per title kept — in particular titles ["A","B","A"] yield two
findings keeping the first "A"), and a sources list equal to the first-index
filtering of the flattened sources — each string kept exactly at the first
index carrying its value, so the first occurrence is kept — hence without
duplicates, order-preserving (a sublist of the flattened sources), and
containing exactly the flattened sources. -/
theorem claim9_merge_dedup (results : List ChunkResult) :
    (ResearchEngine.mergeStep results).keyFindings
      = ResearchEngine.firstOccByTitle []
          ((results.map (fun r => r.keyFindings)).flatten) ∧
    (((ResearchEngine.mergeStep results).keyFindings).map (fun f => f.title)).Nodup ∧
    (ResearchEngine.mergeStep results).sources
      = ResearchEngine.firstIdxDedup ((results.map (fun r => r.sources)).flatten) ∧
    ((ResearchEngine.mergeStep results).sources).Nodup ∧
    List.Sublist ((ResearchEngine.mergeStep results).sources)
      ((results.map (fun r => r.sources)).flatten) ∧
    ∀ s, s ∈ (ResearchEngine.mergeStep results).sources ↔
      s ∈ (results.map (fun r => r.sources)).flatten := by
  have hkf : (ResearchEngine.mergeStep results).keyFindings
      = ResearchEngine.firstOccByTitle []
        ((results.map (fun r => r.keyFindings)).flatten) := by
    show ResearchEngine.dedupByTitle _ = _
    rw [ResearchEngine.dedupByTitle]
    have := ResearchEngine.dedupAux_eq_firstOcc
      ((results.map (fun r => r.keyFindings)).flatten) []
      ((results.map (fun r => r.keyFindings)).flatten)
      (List.nil_append _).symm
    simpa using this
  have hsrc : (ResearchEngine.mergeStep results).sources
      = ResearchEngine.firstIdxDedup ((results.map (fun r => r.sources)).flatten) := by
    show ResearchEngine.jsSetDedup _ = _
    rw [ResearchEngine.jsSetDedup, ResearchEngine.firstIdxDedup]
    have := ResearchEngine.jsSetDedupGo_eq_firstIdx
      ((results.map (fun r => r.sources)).flatten) []
      ((results.map (fun r => r.sources)).flatten) []
      (List.nil_append _).symm (by intro y; simp)
    simpa using this
  refine ⟨hkf, ?_, hsrc, ?_, ?_, ?_⟩
  · rw [hkf]
    exact (ResearchEngine.firstOcc_nodup _ []).1
  · exact (ResearchEngine.jsSetDedupGo_spec _ []).1
  · exact ResearchEngine.jsSetDedupGo_sublist _ []
  · intro s
    show s ∈ ResearchEngine.jsSetDedupGo []
        ((results.map (fun r => r.sources)).flatten) ↔ _
    rw [(ResearchEngine.jsSetDedupGo_spec _ []).2 s]
    simp

/-- A successful try-block always carries the original query. -/
theorem deepResearchBody_query (st : Steps) (q : String) (b d : Nat)
    (r : ResearchResult) (h : deepResearchBody st q b d = Except.ok r) :
    r.query = q := by
  rw [deepResearchBody] at h
  split at h
  · split at h
    · simp at h
    · simp only [Except.ok.injEq] at h
      rw [← h]
  · split at h
    · simp at h
    · split at h
      · simp at h
      · split at h
        · simp at h
        · simp only [Except.ok.injEq] at h
          rw [← h]

/-- Claim C1: for every behaviour of the internal steps (including any
raising by query generation, search, or analysis), deepResearch is a total
function returning an object that carries the original query and a report
with the executiveSummary, keyFindings and sources fields; and whenever an
exception escapes the try-block, the returned object carries the error
string "Research failed: " followed by the message, the degraded default
report, and an empty search-query list. -/
theorem claim1_orchestrator_never_raises (st : Steps) (q : String) (b d : Nat) :
    (deepResearch st q b d).query = q ∧
    (∀ e, deepResearchBody st q b d = Except.error e →
      (deepResearch st q b d).error = some ("Research failed: " ++ e.message) ∧
      (deepResearch st q b d).report = degradedReport ∧
      (deepResearch st q b d).searchQueries = []) := by
  constructor
  · rw [deepResearch]
    cases hb : deepResearchBody st q b d with
    | ok r => exact deepResearchBody_query st q b d r hb
    | error e => rfl
  · intro e he
    rw [deepResearch, he]
    exact ⟨rfl, rfl, rfl⟩

/-- Witness for claim C1: with steps whose analysis stage raises, the
orchestrator still returns, carrying the query, the wrapped error message,
the degraded report and no search queries. -/
theorem claim1_witness :
    (deepResearch (Steps.mk (fun _ _ => Except.ok [])
        (fun _ _ => Except.ok ["q1"]) (fun _ _ => Except.ok [])
        (fun _ _ => Except.error ⟨"boom", none⟩)) "x" 2 1).query = "x" ∧
    (deepResearch (Steps.mk (fun _ _ => Except.ok [])
        (fun _ _ => Except.ok ["q1"]) (fun _ _ => Except.ok [])
        (fun _ _ => Except.error ⟨"boom", none⟩)) "x" 2 1).error
      = some "Research failed: boom" ∧
    (deepResearch (Steps.mk (fun _ _ => Except.ok [])
        (fun _ _ => Except.ok ["q1"]) (fun _ _ => Except.ok [])
        (fun _ _ => Except.error ⟨"boom", none⟩)) "x" 2 1).report = degradedReport := by
  have hbody : deepResearchBody (Steps.mk (fun _ _ => Except.ok [])
      (fun _ _ => Except.ok ["q1"]) (fun _ _ => Except.ok [])
      (fun _ _ => Except.error ⟨"boom", none⟩)) "x" 2 1
      = Except.error ⟨"boom", none⟩ := by decide
  have h := claim1_orchestrator_never_raises (Steps.mk (fun _ _ => Except.ok [])
    (fun _ _ => Except.ok ["q1"]) (fun _ _ => Except.ok [])
    (fun _ _ => Except.error ⟨"boom", none⟩)) "x" 2 1
  obtain ⟨h1, h2, h3⟩ := h.2 ⟨"boom", none⟩ hbody
  exact ⟨h.1, h1, h2⟩

/-- A successful validation returns a non-empty list of at most
`numQuestions` questions. -/
theorem Feedback.validQuestions_ok_length
    (parse : String → Except Err (List String)) (t : String) (nq : Nat)
    (v : List String) (h : Feedback.validQuestions parse t nq = Except.ok v) :
    v ≠ [] ∧ v.length ≤ nq := by
  rw [Feedback.validQuestions] at h
  split at h
  · simp at h
  · split at h
    · simp at h
    · simp only [] at h
      split at h
      · simp at h
      · simp only [Except.ok.injEq] at h
        subst h
        refine ⟨by assumption, ?_⟩
        rw [List.length_take]
        exact Nat.min_le_left _ _

/-- A successful try-block of generateFeedback comes from a successful
validation. -/
theorem Feedback.feedbackOutcome_ok (gen : Nat → Nat → Except Err String)
    (parse : String → Except Err (List String)) (nq : Nat) (v : List String)
    (h : Feedback.feedbackOutcome gen parse nq = Except.ok v) :
    ∃ t, Feedback.validQuestions parse t nq = Except.ok v := by
  rw [Feedback.feedbackOutcome] at h
  split at h
  · simp at h
  · split at h
    next v1 heq =>
      simp only [Except.ok.injEq] at h
      exact ⟨_, h ▸ heq⟩
    next e1 heq =>
      split at h
      · simp at h
      · exact ⟨_, h⟩

/-- generateFeedback with the default count always returns between one and
three questions: a successful validation is non-empty and truncated to
three, and the canned fallback has exactly three. -/
theorem Feedback.generateFeedback_length (gen : Nat → Nat → Except Err String)
    (parse : String → Except Err (List String)) (q : String) :
    1 ≤ (Feedback.generateFeedback gen parse q 3).length ∧
    (Feedback.generateFeedback gen parse q 3).length ≤ 3 := by
  rw [Feedback.generateFeedback]
  cases ho : Feedback.feedbackOutcome gen parse 3 with
  | error e =>
    have hlen : (Feedback.fallbackQuestions q 3).length = 3 := rfl
    constructor
    · show 1 ≤ (Feedback.fallbackQuestions q 3).length
      rw [hlen]
      omega
    · show (Feedback.fallbackQuestions q 3).length ≤ 3
      rw [hlen]
  | ok v =>
    obtain ⟨t, hv⟩ := Feedback.feedbackOutcome_ok gen parse 3 v ho
    obtain ⟨hne, hle⟩ := Feedback.validQuestions_ok_length parse t 3 v hv
    constructor
    · show 1 ≤ v.length
      have := List.length_pos.mpr hne
      omega
    · exact hle

/-- Claim C7 counterexample: in sentinel mode the orchestrator does not
always return exactly 3 feedback questions: when the model answers a JSON
object with a single valid question, exactly one question is returned. -/
theorem claim7_counterexample :
    (deepResearch (mkSteps (fun _ _ => Except.ok "\x7b\"questions\":[\"Why?\"]\x7d")
        (fun _ => Except.ok ["Why?"]) (fun _ => Except.error ⟨"e", none⟩)
        (fun _ => Except.error ⟨"e", none⟩) (fun _ _ => Except.error ⟨"e", none⟩)
        (fun _ => Except.error ⟨"e", none⟩)
        (fun _ _ _ => Except.error ⟨"e", none⟩))
      "quantum computing" 1 1).feedbackQuestions = some ["Why?"] ∧
    (["Why?"] : List String).length ≠ 3 := by
  constructor
  · decide
  · decide

/-- Claim C7 (amended): for every query, deepResearch over the assembled
repository steps with breadth = 1 and depth = 1 (sentinel mode) returns the
original query, the feedback questions produced by generateFeedback with
count 3 — between 1 and 3 questions, exactly 3 whenever generation fell back
to the canned questions — together with an empty report, an empty
search-query list and no error, and performs no search: the result does not
depend on the search oracle. -/
theorem claim7_amended (genF : Nat → Nat → Except Err String)
    (parseF : String → Except Err (List String))
    (genQ : Nat → Except Err String)
    (parseQ : String → Except Err (List String))
    (genA : Nat → Nat → Except Err String)
    (parseA : String → Except Err ChunkResult)
    (fs fs2 : String → SearchParams → Nat → Except Err (List Item)) (q : String) :
    (deepResearch (mkSteps genF parseF genQ parseQ genA parseA fs) q 1 1).query = q ∧
    (deepResearch (mkSteps genF parseF genQ parseQ genA parseA fs) q 1 1).feedbackQuestions
      = some (Feedback.generateFeedback genF parseF q 3) ∧
    1 ≤ (Feedback.generateFeedback genF parseF q 3).length ∧
    (Feedback.generateFeedback genF parseF q 3).length ≤ 3 ∧
    (deepResearch (mkSteps genF parseF genQ parseQ genA parseA fs) q 1 1).searchQueries
      = [] ∧
    (deepResearch (mkSteps genF parseF genQ parseQ genA parseA fs) q 1 1).report
      = emptyReport ∧
    (deepResearch (mkSteps genF parseF genQ parseQ genA parseA fs) q 1 1).error = none ∧
    deepResearch (mkSteps genF parseF genQ parseQ genA parseA fs) q 1 1
      = deepResearch (mkSteps genF parseF genQ parseQ genA parseA fs2) q 1 1 := by
  have hred : ∀ fsa : String → SearchParams → Nat → Except Err (List Item),
      deepResearch (mkSteps genF parseF genQ parseQ genA parseA fsa) q 1 1
        = { query := q,
            feedbackQuestions := some (Feedback.generateFeedback genF parseF q 3),
            searchQueries := [], report := emptyReport, error := none } := by
    intro fsa
    rfl
  obtain ⟨hge, hle⟩ := Feedback.generateFeedback_length genF parseF q
  refine ⟨?_, ?_, hge, hle, ?_, ?_, ?_, ?_⟩
  · rw [hred fs]
  · rw [hred fs]
  · rw [hred fs]
  · rw [hred fs]
  · rw [hred fs]
  · rw [hred fs, hred fs2]
